import Mathlib

/-!
Verification of the rvsearch periodogram / injection-recovery engine
(`rvsearch/periodogram.py`, `rvsearch/inject.py`, `rvsearch/utils.py`).

Numbers are modelled by `ℚ` (the Python floats, with exact arithmetic);
numpy arrays by `List ℚ`; Python dicts of parameter values by association
lists `List (String × ℚ)`.  External library functions (the Lomb-Scargle
power, `np.log10`, `10.**`, the maximum-likelihood fitter) are passed in as
explicit function parameters, since the repository treats them as opaque.
-/

namespace RVSearch

/-- Python `int(q)` on a float: truncation toward zero
(`Int.div` on numerator/denominator truncates toward zero). -/
def pyInt (q : ℚ) : ℤ := q.num / (q.den : ℤ)

/-- `np.linspace a b n`: `n` evenly spaced samples from `a` to `b`, both
endpoints included.  For `n = 1` numpy returns `[a]`; that agrees with this
formula because division by zero is zero in `ℚ`, so the step vanishes. -/
def linspace (a b : ℚ) (n : ℕ) : List ℚ :=
  (List.range n).map (fun i : ℕ => a + (i : ℚ) * (b - a) / ((n : ℚ) - 1))

/-- `np.min` of an array (0 on the empty array, which numpy rejects). -/
def listMin : List ℚ → ℚ
  | [] => 0
  | x :: xs => xs.foldl min x

/-- `np.max` of an array (0 on the empty array, which numpy rejects). -/
def listMax : List ℚ → ℚ
  | [] => 0
  | x :: xs => xs.foldl max x

/-- Index of the first occurrence of `x` in a list (`np.where(l == x)[0][0]`,
also the behaviour of `np.argmin` composed with `np.min`). -/
def firstIdxOf (x : ℚ) : List ℚ → ℕ
  | [] => 0
  | a :: t => if a = x then 0 else firstIdxOf x t + 1

/-- `np.argmin`: index of the first minimal element. -/
def npArgmin (l : List ℚ) : ℕ := firstIdxOf (listMin l) l

/-- `np.mean` of an array. -/
def npMean (l : List ℚ) : ℚ := l.foldl (· + ·) 0 / (l.length : ℚ)

/-- `np.flip` of a 1-D array. -/
def npFlip (l : List ℚ) : List ℚ := l.reverse

/-! ### Association-list model of a Python dict of parameter values -/

/-- Look a key up (`d[k]`, as an `Option`; first binding wins). -/
def pdictGet : List (String × ℚ) → String → Option ℚ
  | [], _ => none
  | (k', v) :: t, k => if k' = k then some v else pdictGet t k

/-- Python dict assignment `d[k] = v`: replace the binding if the key is
present, append it otherwise. -/
def pdictSet : List (String × ℚ) → String → ℚ → List (String × ℚ)
  | [], k, v => [(k, v)]
  | (k', v') :: t, k, v =>
      if k' = k then (k, v) :: t else (k', v') :: pdictSet t k v

/-! ### Period-grid construction (`per_spacing`, `make_per_grid`) -/

/-- `Periodogram.per_spacing()`: quarter-phase-slip frequency spacing.
`fmin = 1/maxsearchP`, `fmax = 1/minsearchP`, `dnu = 1/(4·timelen)`,
`num_freq = int(int((fmax-fmin)/dnu + 1) * oversampling)`, frequencies
`linspace(fmax, fmin, num_freq)`, periods their reciprocals.  Returns the
period array and the count assigned to `self.num_pers`.  (For a negative
count the Python `np.linspace` call raises, so the model is meaningful for
nonnegative counts only.) -/
def per_spacing (minsearchP maxsearchP timelen oversampling : ℚ) :
    List ℚ × ℕ :=
  let fmin := 1 / maxsearchP
  let fmax := 1 / minsearchP
  let dnu := 1 / (4 * timelen)
  let num_freq1 : ℤ := pyInt ((fmax - fmin) / dnu + 1)
  let num_freq : ℤ := pyInt ((num_freq1 : ℚ) * oversampling)
  let freqs := linspace fmax fmin num_freq.toNat
  (freqs.map (fun f => 1 / f), num_freq.toNat)

/-- Grid-related state of a `Periodogram` after construction. -/
structure PerState where
  pers : List ℚ
  freqs : List ℚ
  num_pers : Option ℕ
  deriving Repr, DecidableEq

/-- The grid part of `Periodogram.__init__`: `self.num_pers = num_pers`,
overridden to `len(manual_grid)` when a manual grid is supplied, followed by
`make_per_grid()` (manual grid verbatim; else `per_spacing` when no count was
given; else periods `1/linspace(1/maxsearchP, 1/minsearchP, num_pers)`), and
finally `self.freqs = 1/self.pers`. -/
def periodogramInitGrid (manual_grid : Option (List ℚ))
    (num_pers_arg : Option ℕ)
    (minsearchP maxsearchP timelen oversampling : ℚ) : PerState :=
  let num_pers0 : Option ℕ :=
    match manual_grid with
    | some g => some g.length
    | none => num_pers_arg
  match manual_grid with
  | some g => { pers := g, freqs := g.map (fun p => 1 / p), num_pers := num_pers0 }
  | none =>
      match num_pers0 with
      | none =>
          let sp := per_spacing minsearchP maxsearchP timelen oversampling
          { pers := sp.1, freqs := sp.1.map (fun p => 1 / p),
            num_pers := some sp.2 }
      | some n =>
          let pers := (linspace (1 / maxsearchP) (1 / minsearchP) n).map
            (fun f => 1 / f)
          { pers := pers, freqs := pers.map (fun p => 1 / p),
            num_pers := some n }

/-! ### `Periodogram.save_per` and its `np.savetxt` call -/

/-- The parameter names of `numpy.savetxt`. -/
def savetxtParams : List String :=
  ["fname", "X", "fmt", "delimiter", "newline", "header", "footer",
   "comments", "encoding"]

/-- The required (no-default) parameters of `numpy.savetxt`. -/
def savetxtRequired : List String := ["fname", "X"]

/-- A Python call `np.savetxt(<numPositional positional args>, **kwargs)`:
raises `TypeError` when a keyword is not a parameter name or a required
parameter is left unbound; on success it writes the file named by `fname`.
Returns the list of files written. -/
def npSavetxtCall (numPositional : ℕ) (kwargs : List String)
    (fname : String) : Except String (List String) :=
  if kwargs.any (fun k => !(savetxtParams.contains k)) then
    .error "TypeError: savetxt() got an unexpected keyword argument"
  else
    let bound := savetxtParams.take numPositional ++ kwargs
    if savetxtRequired.all (fun r => bound.contains r) then
      .ok [fname]
    else
      .error "TypeError: savetxt() missing required argument"

/-- Outcome of `save_per`: the console lines printed and the files written. -/
structure SaveOutcome where
  printed : List String
  filesWritten : List String
  deriving Repr, DecidableEq

/-- `Periodogram.save_per(ls)`.  The source calls
`np.savetxt((self.pers, self.power[...]), filename='..._periodogram.csv')`
inside a bare `try`/`except` that prints a have-not-generated notice.  The
call passes one positional argument (the `(pers, power)` tuple, bound to
`fname`) and the keyword `filename`, which is not a `np.savetxt` parameter. -/
def save_per (power_bic power_ls : Option (List ℚ)) (pers : List ℚ)
    (ls : Bool) : SaveOutcome :=
  if ls = false then
    match npSavetxtCall 1 ["filename"] "BIC_periodogram.csv" with
    | .ok files => ⟨[], files⟩
    | .error _ => ⟨["Have not generated a delta-BIC periodogram."], []⟩
  else
    match npSavetxtCall 1 ["filename"] "LS_periodogram.csv" with
    | .ok files => ⟨[], files⟩
    | .error _ => ⟨["Have not generated a Lomb-Scargle periodogram."], []⟩

/-! ### `Periodogram.ls` -/

/-- `Periodogram.ls()`: the external generalized Lomb-Scargle implementation
(`astropy.stats.LombScargle(times, vel, errvel).power`) is modelled by the
opaque per-frequency power function `P`; the source evaluates it on
`np.flip(self.freqs)` and stores the resulting array under the `ls` key. -/
def lsPowerSeries (P : ℚ → ℚ) (freqs : List ℚ) : List ℚ :=
  (npFlip freqs).map P

/-! ### The `default_pdict` snapshot and its mutation in `per_bic` -/

/-- The `per_bic` line `self.default_pdict['k{}'.format(num_planets)] = rms`:
the default-parameter snapshot has its trial-planet amplitude entry
overwritten with the residual RMS of the baseline fit. -/
def perBicSeedAmplitude (numPlanets : ℕ) (rms : ℚ)
    (default_pdict : List (String × ℚ)) : List (String × ℚ) :=
  pdictSet default_pdict ("k" ++ toString numPlanets) rms

/-! ## Claims C1–C3 -/

/-- Basic lemmas about `pdictGet`/`pdictSet`. -/
theorem pdictGet_set_self (d : List (String × ℚ)) (k : String) (v : ℚ) :
    pdictGet (pdictSet d k v) k = some v := by
  induction d with
  | nil => simp [pdictGet, pdictSet]
  | cons hd t ih =>
      obtain ⟨k', v'⟩ := hd
      by_cases h : k' = k
      · simp [pdictSet, h, pdictGet]
      · simp [pdictSet, h, pdictGet, ih]

theorem pdictGet_set_ne (d : List (String × ℚ)) (k k' : String) (v : ℚ)
    (h : k' ≠ k) : pdictGet (pdictSet d k v) k' = pdictGet d k' := by
  induction d with
  | nil => simp [pdictGet, pdictSet, Ne.symm h]
  | cons hd t ih =>
      obtain ⟨k₀, v₀⟩ := hd
      by_cases hk : k₀ = k
      · subst hk
        simp [pdictSet, pdictGet, Ne.symm h]
      · by_cases hk' : k₀ = k'
        · subst hk'
          simp [pdictSet, hk, pdictGet]
        · simp [pdictSet, hk, pdictGet, hk', ih]

/-- C1: `save_per` never writes a file: the `np.savetxt` call is made with
the invalid keyword `filename`, so it raises `TypeError` inside the bare
`except`, and the have-not-generated notice is printed even when the
requested power series has been computed. -/
theorem save_per_never_writes (power_bic power_ls : Option (List ℚ))
    (pers : List ℚ) (ls : Bool) :
    (save_per power_bic power_ls pers ls).filesWritten = [] ∧
    (save_per power_bic power_ls pers ls).printed =
      [if ls then "Have not generated a Lomb-Scargle periodogram."
       else "Have not generated a delta-BIC periodogram."] := by
  cases ls <;> simp [save_per, npSavetxtCall, savetxtParams]

/-- C2 (counterexample): the stored `power['ls']` array is not aligned
index-for-index with the stored frequencies: with the two-element frequency
grid `[2, 1]` and the identity power function, entry 0 of the stored series
is the power at frequency 1, not at `freqs[0] = 2`. -/
theorem ls_not_index_aligned :
    (lsPowerSeries (fun q => q) [2, 1]).getD 0 0 ≠
      (fun q : ℚ => q) ([(2 : ℚ), 1].getD 0 0) := by
  decide

/-- C2 (amended): after `ls()`, the stored series is aligned with the
reversed frequency sequence: entry `i` is the Lomb-Scargle power at
`freqs[len - 1 - i]`. -/
theorem ls_reverse_aligned (P : ℚ → ℚ) (freqs : List ℚ) (i : ℕ)
    (h : i < freqs.length) :
    (lsPowerSeries P freqs).getD i 0 =
      P (freqs.getD (freqs.length - 1 - i) 0) := by
  have hrev : i < freqs.reverse.length := by simpa using h
  have hlen : freqs.length - 1 - i < freqs.length := by omega
  rw [lsPowerSeries, npFlip]
  rw [List.getD_eq_getElem _ _ (by simpa using h)]
  rw [List.getD_eq_getElem _ _ hlen]
  rw [List.getElem_map]
  congr 1
  rw [List.getElem_reverse]

/-- Witness for `ls_reverse_aligned` at a concrete input. -/
theorem ls_reverse_aligned_witness :
    (lsPowerSeries (fun q => q * q) [2, 3]).getD 0 0 =
      (fun q : ℚ => q * q) ([(2 : ℚ), 3].getD ([(2 : ℚ), 3].length - 1 - 0) 0) :=
  ls_reverse_aligned (fun q => q * q) [2, 3] 0 (by decide)

/-- C3 (counterexample): the default parameter snapshot is not read-only:
`per_bic` overwrites the trial-planet amplitude entry.  With one modeled
planet, snapshot `{k1 ↦ 0}` and residual RMS 5, the entry `k1` changes. -/
theorem default_pdict_mutated :
    pdictGet (perBicSeedAmplitude 1 5 [("k1", 0)]) "k1" ≠
      pdictGet [("k1", 0)] "k1" := by
  decide

/-- C3 (amended): `per_bic` changes exactly the amplitude entry
`k<num_planets>` of `default_pdict`, setting it to the residual RMS; every
other entry keeps its construction-time value. -/
theorem default_pdict_mutation_localized (numPlanets : ℕ) (rms : ℚ)
    (d : List (String × ℚ)) :
    pdictGet (perBicSeedAmplitude numPlanets rms d)
        ("k" ++ toString numPlanets) = some rms ∧
    ∀ key : String, key ≠ "k" ++ toString numPlanets →
      pdictGet (perBicSeedAmplitude numPlanets rms d) key = pdictGet d key := by
  refine ⟨pdictGet_set_self _ _ _, fun key hk => ?_⟩
  exact pdictGet_set_ne _ _ _ _ hk

/-- Witness for `default_pdict_mutation_localized` at a concrete input. -/
theorem default_pdict_mutation_localized_witness :
    pdictGet (perBicSeedAmplitude 1 5 [("k1", 0), ("per1", 10)]) "k1" =
      some 5 ∧
    pdictGet (perBicSeedAmplitude 1 5 [("k1", 0), ("per1", 10)]) "per1" =
      pdictGet [("k1", 0), ("per1", 10)] "per1" :=
  ⟨(default_pdict_mutation_localized 1 5 [("k1", 0), ("per1", 10)]).1,
   (default_pdict_mutation_localized 1 5 [("k1", 0), ("per1", 10)]).2
     "per1" (by decide)⟩

/-! ## Lemmas about `linspace` -/

theorem length_linspace (a b : ℚ) (n : ℕ) : (linspace a b n).length = n := by
  rw [linspace, List.length_map, List.length_range]

theorem getElem_linspace (a b : ℚ) (n i : ℕ) (h : i < (linspace a b n).length) :
    (linspace a b n)[i] = a + (i : ℚ) * (b - a) / ((n : ℚ) - 1) := by
  have hi : i < n := by rwa [length_linspace] at h
  unfold linspace
  rw [List.getElem_map, List.getElem_range]

theorem mem_linspace (a b x : ℚ) (n : ℕ) (hx : x ∈ linspace a b n) :
    ∃ i : ℕ, i < n ∧ x = a + i * (b - a) / ((n : ℚ) - 1) := by
  rw [linspace, List.mem_map] at hx
  obtain ⟨i, hi, hfx⟩ := hx
  rw [List.mem_range] at hi
  exact ⟨i, hi, hfx.symm⟩

theorem linspace_pairwise_lt (a b : ℚ) (n : ℕ) (h : a < b) :
    (linspace a b n).Pairwise (· < ·) := by
  unfold linspace
  rw [List.pairwise_map]
  refine List.Pairwise.imp_of_mem ?_ (List.pairwise_lt_range n)
  intro i j hi hj hij
  rw [List.mem_range] at hi hj
  have hn : (0 : ℚ) < (n : ℚ) - 1 := by
    have : 2 ≤ n := by omega
    have : (2 : ℚ) ≤ (n : ℚ) := by exact_mod_cast this
    linarith
  have hij' : (i : ℚ) < (j : ℚ) := by exact_mod_cast hij
  have hmul : (i : ℚ) * (b - a) < (j : ℚ) * (b - a) :=
    mul_lt_mul_of_pos_right hij' (by linarith)
  have := (div_lt_div_iff_of_pos_right hn).mpr hmul
  linarith

theorem linspace_pairwise_gt (a b : ℚ) (n : ℕ) (h : b < a) :
    (linspace a b n).Pairwise (· > ·) := by
  unfold linspace
  rw [List.pairwise_map]
  refine List.Pairwise.imp_of_mem ?_ (List.pairwise_lt_range n)
  intro i j hi hj hij
  rw [List.mem_range] at hi hj
  have hn : (0 : ℚ) < (n : ℚ) - 1 := by
    have : 2 ≤ n := by omega
    have : (2 : ℚ) ≤ (n : ℚ) := by exact_mod_cast this
    linarith
  have hij' : (i : ℚ) < (j : ℚ) := by exact_mod_cast hij
  have hmul : (j : ℚ) * (b - a) < (i : ℚ) * (b - a) := by
    have hba : b - a < 0 := by linarith
    exact mul_lt_mul_of_neg_right hij' hba
  have := (div_lt_div_iff_of_pos_right hn).mpr hmul
  simp only [gt_iff_lt]
  linarith

/-- Every sample of a descending `linspace` lies between the endpoints. -/
theorem mem_linspace_between_ge (a b x : ℚ) (n : ℕ) (h : b ≤ a)
    (hx : x ∈ linspace a b n) : b ≤ x ∧ x ≤ a := by
  obtain ⟨i, hi, hxe⟩ := mem_linspace a b x n hx
  by_cases hn1 : n ≤ 1
  · have hi0 : i = 0 := by omega
    have hn' : n = 1 := by omega
    subst hi0 hn'
    rw [hxe]
    norm_num
    exact h
  · push_neg at hn1
    have hn : (0 : ℚ) < (n : ℚ) - 1 := by
      have h2 : (2 : ℚ) ≤ (n : ℚ) := by exact_mod_cast hn1
      linarith
    have hterm_le : (i : ℚ) * (b - a) / ((n : ℚ) - 1) ≤ 0 := by
      apply div_nonpos_of_nonpos_of_nonneg
      · exact mul_nonpos_of_nonneg_of_nonpos (by positivity) (by linarith)
      · linarith
    have hile : (i : ℚ) ≤ (n : ℚ) - 1 := by
      have : i + 1 ≤ n := hi
      have : ((i : ℚ)) + 1 ≤ (n : ℚ) := by exact_mod_cast this
      linarith
    have hterm_ge : b - a ≤ (i : ℚ) * (b - a) / ((n : ℚ) - 1) := by
      rw [le_div_iff₀ hn]
      nlinarith [mul_nonpos_of_nonpos_of_nonneg (show b - a ≤ 0 by linarith)
        (show (0 : ℚ) ≤ ((n : ℚ) - 1) - (i : ℚ) by linarith)]
    constructor
    · rw [hxe]; linarith
    · rw [hxe]; linarith

/-- Every sample of an ascending `linspace` lies between the endpoints. -/
theorem mem_linspace_between_le (a b x : ℚ) (n : ℕ) (h : a ≤ b)
    (hx : x ∈ linspace a b n) : a ≤ x ∧ x ≤ b := by
  obtain ⟨i, hi, hxe⟩ := mem_linspace a b x n hx
  by_cases hn1 : n ≤ 1
  · have hi0 : i = 0 := by omega
    have hn' : n = 1 := by omega
    subst hi0 hn'
    rw [hxe]
    norm_num
    exact h
  · push_neg at hn1
    have hn : (0 : ℚ) < (n : ℚ) - 1 := by
      have h2 : (2 : ℚ) ≤ (n : ℚ) := by exact_mod_cast hn1
      linarith
    have hterm_ge : 0 ≤ (i : ℚ) * (b - a) / ((n : ℚ) - 1) :=
      div_nonneg (mul_nonneg (by positivity) (by linarith)) (by linarith)
    have hile : (i : ℚ) ≤ (n : ℚ) - 1 := by
      have : i + 1 ≤ n := hi
      have : ((i : ℚ)) + 1 ≤ (n : ℚ) := by exact_mod_cast this
      linarith
    have hterm_le : (i : ℚ) * (b - a) / ((n : ℚ) - 1) ≤ b - a := by
      rw [div_le_iff₀ hn]
      nlinarith [mul_nonneg (show (0 : ℚ) ≤ b - a by linarith)
        (show (0 : ℚ) ≤ ((n : ℚ) - 1) - (i : ℚ) by linarith)]
    constructor
    · rw [hxe]; linarith
    · rw [hxe]; linarith

/-- Taking reciprocals twice is the identity on a list of rationals
(`1/(1/0) = 0` as well, so no side condition is needed). -/
theorem map_one_div_one_div (l : List ℚ) :
    (l.map (fun f => 1 / f)).map (fun p => 1 / p) = l := by
  rw [List.map_map]
  have hcomp : ((fun p : ℚ => 1 / p) ∘ fun f : ℚ => 1 / f) = id := by
    funext x
    simp [one_div_one_div]
  rw [hcomp, List.map_id]

/-- In the `per_spacing` branch the stored frequency array is exactly the
descending `linspace(fmax, fmin, num_freq)` (reciprocal of reciprocal). -/
theorem initGrid_spacing_freqs (minP maxP timelen os : ℚ) :
    (periodogramInitGrid none none minP maxP timelen os).freqs =
      linspace (1 / minP) (1 / maxP)
        (per_spacing minP maxP timelen os).2 := by
  show ((per_spacing minP maxP timelen os).1.map (fun p => 1 / p)) = _
  show ((linspace (1 / minP) (1 / maxP) _).map (fun f => 1 / f)).map
      (fun p => 1 / p) = _
  rw [map_one_div_one_div]
  rfl

/-- In the explicit-count branch the stored frequency array is exactly the
ascending `linspace(1/maxsearchP, 1/minsearchP, num_pers)`. -/
theorem initGrid_count_freqs (minP maxP timelen os : ℚ) (n : ℕ) :
    (periodogramInitGrid none (some n) minP maxP timelen os).freqs =
      linspace (1 / maxP) (1 / minP) n := by
  show ((linspace (1 / maxP) (1 / minP) n).map (fun f => 1 / f)).map
      (fun p => 1 / p) = _
  rw [map_one_div_one_div]

/-! ## Claim C5 -/

/-- C5 (counterexample): the explicit `num_pers` branch of the auto-generated
grid is not in descending-frequency order: with bounds 3 and 300 and two
requested samples, the stored frequencies are `[1/300, 1/3]`, ascending. -/
theorem count_branch_freqs_not_descending :
    (periodogramInitGrid none (some 2) 3 300 100 1).freqs =
      [1 / 300, 1 / 3] ∧
    ¬ (periodogramInitGrid none (some 2) 3 300 100 1).freqs.Pairwise
      (· > ·) := by
  have he : (periodogramInitGrid none (some 2) 3 300 100 1).freqs =
      [1 / 300, 1 / 3] := by
    show ((linspace ((1 : ℚ) / 300) ((1 : ℚ) / 3) 2).map
      (fun f => 1 / f)).map (fun p => 1 / p) = _
    rw [map_one_div_one_div]
    simp [linspace, List.range_succ]
    norm_num
  refine ⟨he, ?_⟩
  rw [he]
  intro hpair
  rw [List.pairwise_cons] at hpair
  have := hpair.1 (1 / 3) (by simp)
  norm_num at this

/-- C5 (amended): the `per_spacing` branch produces strictly
descending-frequency grids, while the explicit `num_pers` branch produces
strictly ascending-frequency (strictly descending-period) grids; in both
branches the stored frequencies are the element-wise reciprocals of the
stored periods; and for search bounds `minsearchP = 3`, `maxsearchP = 300`
every `per_spacing`-branch period lies in `[3, 300]`. -/
theorem grid_order_and_bounds :
    (∀ minP maxP timelen os : ℚ, 0 < minP → minP < maxP →
      (periodogramInitGrid none none minP maxP timelen os).freqs.Pairwise
          (· > ·) ∧
      (periodogramInitGrid none none minP maxP timelen os).freqs =
        (periodogramInitGrid none none minP maxP timelen os).pers.map
          (fun p => 1 / p)) ∧
    (∀ (minP maxP timelen os : ℚ) (n : ℕ), 0 < minP → minP < maxP →
      (periodogramInitGrid none (some n) minP maxP timelen os).freqs.Pairwise
          (· < ·) ∧
      (periodogramInitGrid none (some n) minP maxP timelen os).pers.Pairwise
          (· > ·) ∧
      (periodogramInitGrid none (some n) minP maxP timelen os).freqs =
        (periodogramInitGrid none (some n) minP maxP timelen os).pers.map
          (fun p => 1 / p)) ∧
    (∀ timelen os : ℚ,
      ∀ p ∈ (periodogramInitGrid none none 3 300 timelen os).pers,
        3 ≤ p ∧ p ≤ 300) := by
  have hrecip : ∀ (m : Option (List ℚ)) (na : Option ℕ) (a b t o : ℚ),
      (periodogramInitGrid m na a b t o).freqs =
        (periodogramInitGrid m na a b t o).pers.map (fun p => 1 / p) := by
    intro m na a b t o
    cases m with
    | some g => rfl
    | none => cases na with
      | some n => rfl
      | none => rfl
  refine ⟨fun minP maxP timelen os h1 h2 => ⟨?_, hrecip _ _ _ _ _ _⟩,
    fun minP maxP timelen os n h1 h2 => ⟨?_, ?_, hrecip _ _ _ _ _ _⟩,
    fun timelen os p hp => ?_⟩
  · rw [initGrid_spacing_freqs]
    apply linspace_pairwise_gt
    have hmaxpos : 0 < maxP := lt_trans h1 h2
    exact one_div_lt_one_div_of_lt h1 h2
  · rw [initGrid_count_freqs]
    apply linspace_pairwise_lt
    exact one_div_lt_one_div_of_lt h1 h2
  · -- descending periods in the explicit-count branch
    show ((linspace (1 / maxP) (1 / minP) n).map (fun f => 1 / f)).Pairwise
      (· > ·)
    rw [List.pairwise_map]
    have hbase := linspace_pairwise_lt (1 / maxP) (1 / minP) n
      (one_div_lt_one_div_of_lt h1 h2)
    refine List.Pairwise.imp_of_mem ?_ hbase
    intro x y hx hy hxy
    have hmaxpos : 0 < maxP := lt_trans h1 h2
    have hfmin : 0 < 1 / maxP := by positivity
    have hxpos : 0 < x :=
      lt_of_lt_of_le hfmin (mem_linspace_between_le _ _ _ _
        (le_of_lt (one_div_lt_one_div_of_lt h1 h2)) hx).1
    exact one_div_lt_one_div_of_lt hxpos hxy
  · -- period bounds in the spacing branch with bounds 3 and 300
    have hp' : p ∈ ((linspace ((1 : ℚ) / 3) ((1 : ℚ) / 300)
        (per_spacing 3 300 timelen os).2).map (fun f => 1 / f)) := by
      show p ∈ ((linspace ((1 : ℚ) / 3) ((1 : ℚ) / 300) _).map
        (fun f => 1 / f))
      exact hp
    rw [List.mem_map] at hp'
    obtain ⟨f, hf, rfl⟩ := hp'
    have hbounds := mem_linspace_between_ge ((1 : ℚ) / 3) ((1 : ℚ) / 300) f _
      (by norm_num) hf
    have hfpos : 0 < f := lt_of_lt_of_le (by norm_num) hbounds.1
    constructor
    · rw [show (3 : ℚ) = 1 / (1 / 3) by norm_num]
      exact one_div_le_one_div_of_le hfpos hbounds.2
    · rw [show (300 : ℚ) = 1 / (1 / 300) by norm_num]
      exact one_div_le_one_div_of_le (by norm_num) hbounds.1

/-- Witness for `grid_order_and_bounds` at concrete inputs. -/
theorem grid_order_and_bounds_witness :
    ((periodogramInitGrid none none 3 300 100 1).freqs.Pairwise (· > ·)) ∧
    ((periodogramInitGrid none (some 2) 3 300 100 1).freqs.Pairwise
      (· < ·)) ∧
    ((3 : ℚ) ≤ 3 ∧ (3 : ℚ) ≤ 300) := by
  refine ⟨(grid_order_and_bounds.1 3 300 100 1 (by norm_num)
    (by norm_num)).1,
    (grid_order_and_bounds.2.1 3 300 100 1 2 (by norm_num) (by norm_num)).1,
    ?_⟩
  have hmem : (3 : ℚ) ∈ (periodogramInitGrid none none 3 300 (3/4) 1).pers := by
    show (3 : ℚ) ∈ (linspace ((1 : ℚ) / 3) ((1 : ℚ) / 300)
      (per_spacing 3 300 (3/4) 1).2).map (fun f => 1 / f)
    have hn : (per_spacing 3 300 (3/4) 1).2 = 1 := by
      show (pyInt ((pyInt ((1/3 - 1/300 : ℚ) / (1 / (4 * (3/4))) + 1) : ℚ)
        * 1)).toNat = 1
      norm_num [pyInt]
    rw [hn]
    simp [linspace, List.range_succ]
  exact grid_order_and_bounds.2.2 (3/4) 1 3 hmem

/-! ## Claim C10 -/

/-- C10: after construction, `num_pers` equals the length of the stored
period grid in all three branches (manual grid, explicit count, and the
`per_spacing` rule, including the degenerate zero-frequency case).  The
hypotheses delimit the region where the Python code does not raise before
assigning the grid (a negative spacing count would make `np.linspace`
raise). -/
theorem num_pers_matches_grid_length (manual : Option (List ℚ))
    (num_arg : Option ℕ) (minP maxP timelen os : ℚ)
    (_h1 : 0 < minP) (_h2 : minP ≤ maxP) (_h3 : 0 < timelen) (_h4 : 0 ≤ os) :
    (periodogramInitGrid manual num_arg minP maxP timelen os).num_pers =
      some (periodogramInitGrid manual num_arg minP maxP timelen
        os).pers.length := by
  cases manual with
  | some g => rfl
  | none =>
      cases num_arg with
      | some n =>
          show some n = some (((linspace (1 / maxP) (1 / minP) n).map
            (fun f => 1 / f)).length)
          rw [List.length_map, length_linspace]
      | none =>
          show some ((per_spacing minP maxP timelen os).2) =
            some ((per_spacing minP maxP timelen os).1.length)
          show some _ = some (((linspace (1 / minP) (1 / maxP) _).map
            (fun f => 1 / f)).length)
          rw [List.length_map, length_linspace]
          rfl

/-- Witness for `num_pers_matches_grid_length`: all three branches at
concrete inputs, including a degenerate zero-frequency spacing grid
(`oversampling = 0`). -/
theorem num_pers_matches_grid_length_witness :
    ((periodogramInitGrid (some [5, 10]) none 3 10000 100 1).num_pers =
      some (periodogramInitGrid (some [5, 10]) none 3 10000 100
        1).pers.length) ∧
    ((periodogramInitGrid none (some 5) 3 10000 100 1).num_pers =
      some (periodogramInitGrid none (some 5) 3 10000 100 1).pers.length) ∧
    ((periodogramInitGrid none none 3 300 100 0).num_pers =
      some (periodogramInitGrid none none 3 300 100 0).pers.length) :=
  ⟨num_pers_matches_grid_length (some [5, 10]) none 3 10000 100 1
      (by norm_num) (by norm_num) (by norm_num) (by norm_num),
   num_pers_matches_grid_length none (some 5) 3 10000 100 1
      (by norm_num) (by norm_num) (by norm_num) (by norm_num),
   num_pers_matches_grid_length none none 3 300 100 0
      (by norm_num) (by norm_num) (by norm_num) (by norm_num)⟩

/-! ### The per-grid-point fit of `per_bic.fit_period` -/

/-- The parameter key `'per{}'.format(n)`. -/
def perKey (n : ℕ) : String := "per" ++ toString n

/-- The parameter key `'k{}'.format(n)`. -/
def kKey (n : ℕ) : String := "k" ++ toString n

/-- The parameter key `'tc{}'.format(n)`. -/
def tcKey (n : ℕ) : String := "tc" ++ toString n

/-- `for k in self.default_pdict.keys(): post.params[k].value =
self.default_pdict[k]`: reset every snapshot key on the working copy. -/
def resetToDefault (dflt : List (String × ℚ)) (p : List (String × ℚ)) :
    List (String × ℚ) :=
  dflt.foldl (fun acc kv => pdictSet acc kv.1 kv.2) p

/-- `tc_new = self.times[np.argmin(np.absolute(y - np.mean(y)))]`: the
observation time whose velocity deviates least from the mean velocity. -/
def tcNew (times vels : List ℚ) : ℚ :=
  times.getD (npArgmin (vels.map (fun v => |v - npMean vels|))) 0

/-- Parameter state passed to the first maximum-likelihood fit of a grid
point: reset to the snapshot, then set the trial period. -/
def firstFitInput (dflt : List (String × ℚ)) (n : ℕ) (per : ℚ)
    (post : List (String × ℚ)) : List (String × ℚ) :=
  pdictSet (resetToDefault dflt post) (perKey n) per

/-- Parameter state passed to the second (retry) fit: reset, set the trial
period, then force the trial amplitude to zero. -/
def secondFitInput (dflt : List (String × ℚ)) (n : ℕ) (per : ℚ)
    (p1 : List (String × ℚ)) : List (String × ℚ) :=
  pdictSet (pdictSet (resetToDefault dflt p1) (perKey n) per) (kKey n) 0

/-- Parameter state passed to the third (retry) fit: reset, then set the
trial time-of-conjunction to `tcNew`.  The source does not re-apply the
trial period or zero the amplitude here. -/
def thirdFitInput (dflt : List (String × ℚ)) (n : ℕ) (times vels : List ℚ)
    (p2 : List (String × ℚ)) : List (String × ℚ) :=
  pdictSet (resetToDefault dflt p2) (tcKey n) (tcNew times vels)

/-- Result of one grid point of `fit_period`: the recorded `Δbic`, the final
parameter state, and the parameter states passed to the external
maximum-likelihood fitter, in order. -/
structure FitTrace where
  bic : ℚ
  params : List (String × ℚ)
  fitInputs : List (List (String × ℚ))
  deriving Repr, DecidableEq

/-- One iteration of the `for i, per in enumerate(per_array)` loop of
`per_bic.fit_period`: the external `radvel.fitting.maxlike_fitting` is the
opaque `fit`, and `post.likelihood.bic()` the opaque `bicOf`.  `n` is the
trial-planet index (`num_known_planets + 1 = post.params.num_planets`). -/
def fit_period_point (fit : List (String × ℚ) → List (String × ℚ))
    (bicOf : List (String × ℚ) → ℚ) (baseline_bic floorBic : ℚ)
    (dflt : List (String × ℚ)) (n : ℕ) (times vels : List ℚ) (per : ℚ)
    (post : List (String × ℚ)) : FitTrace :=
  let p1in := firstFitInput dflt n per post
  let p1 := fit p1in
  let b1 := baseline_bic - bicOf p1
  if b1 < floorBic - 1 then
    let p2in := secondFitInput dflt n per p1
    let p2 := fit p2in
    let b2 := baseline_bic - bicOf p2
    if b2 < floorBic - 1 then
      let p3in := thirdFitInput dflt n times vels p2
      let p3 := fit p3in
      ⟨baseline_bic - bicOf p3, p3, [p1in, p2in, p3in]⟩
    else ⟨b2, p2, [p1in, p2in]⟩
  else ⟨b1, p1, [p1in]⟩

/-! ### Progress reporting (`TqdmUpTo`, `run_injections` verbose path) -/

/-- Modelled from the spec: the Progress Reporting Helper `TqdmUpTo` —
imported by `inject.py` from `rvsearch.periodogram` but not present in the
provided `periodogram.py` — a progress bar supporting ordinary incremental
updates and an absolute-position update `update_to(position)`. -/
structure TqdmUpTo where
  total : ℕ
  pos : ℕ
  deriving Repr, DecidableEq

/-- Modelled from the spec: `update_to(position)` sets the bar to the given
absolute position. -/
def TqdmUpTo.update_to (bar : TqdmUpTo) (position : ℕ) : TqdmUpTo :=
  { bar with pos := position }

/-- State of the verbose progress reporting in `run_injections`: the shared
counter (`multiprocessing.Value('i', 0, lock=True)`), the bar, and the
positions passed to `update_to` so far. -/
structure ProgressState where
  counter : ℕ
  pbar : TqdmUpTo
  calls : List ℕ
  deriving Repr, DecidableEq

/-- The verbose tail of `_run_one`: `counter.value += 1;
pbar.update_to(counter.value)`. -/
def runOneProgress (st : ProgressState) : ProgressState :=
  let c := st.counter + 1
  { counter := c, pbar := st.pbar.update_to c, calls := st.calls ++ [c] }

/-- The progress state after `k` completed trials, starting from the state
`run_injections` sets up (`counter = 0`, fresh bar over the trial count). -/
def injectionsProgress (total : ℕ) : ℕ → ProgressState
  | 0 => ⟨0, ⟨total, 0⟩, []⟩
  | k + 1 => runOneProgress (injectionsProgress total k)

/-! ### `Completeness.completeness_grid` and `Completeness.interpolate` -/

/-- An injection/recovery record restricted to what the completeness grid
reads: the x-column value, the y-column value, and the recovered flag. -/
structure InjPoint where
  x : ℚ
  y : ℚ
  recovered : Bool
  deriving Repr, DecidableEq

/-- `(xinj <= xhigh) & (xinj >= xlow)` for one record. -/
def inXWindow (xlow xhigh : ℚ) (pt : InjPoint) : Bool :=
  decide (xlow ≤ pt.x) && decide (pt.x ≤ xhigh)

/-- Membership in both the x- and the y-window. -/
def inBox (xlow xhigh ylow yhigh : ℚ) (pt : InjPoint) : Bool :=
  inXWindow xlow xhigh pt && decide (ylow ≤ pt.y) && decide (pt.y ≤ yhigh)

/-- `xbox = yinj[np.where((xinj <= xhigh) & (xinj >= xlow))[0]]`: the
injected y-values of the records whose x lies in the x-window. -/
def xboxYs (pts : List InjPoint) (xlow xhigh : ℚ) : List ℚ :=
  (pts.filter (inXWindow xlow xhigh)).map (·.y)

/-- `len(boxall)`: the number of records inside both windows. -/
def boxallCount (pts : List InjPoint) (xlow xhigh ylow yhigh : ℚ) : ℕ :=
  pts.countP (inBox xlow xhigh ylow yhigh)

/-- `len(boxgood)`: the number of recovered records inside both windows
(`xinj[good]` restricts to recovered records first). -/
def boxgoodCount (pts : List InjPoint) (xlow xhigh ylow yhigh : ℚ) : ℕ :=
  pts.countP (fun pt => pt.recovered && inBox xlow xhigh ylow yhigh pt)

/-- One cell of the completeness grid (the body of the double loop in
`completeness_grid`, with the window bounds already computed): undefined
(`np.nan`, modelled `none`) when the x-window is empty or `y` falls outside
the y-range of the x-window records or at most 10 records lie in the box;
otherwise `len(boxgood)/len(boxall)`. -/
def cellValue (pts : List InjPoint) (xlow xhigh ylow yhigh y : ℚ) :
    Option ℚ :=
  if xboxYs pts xlow xhigh = [] ∨ y > listMax (xboxYs pts xlow xhigh) ∨
      y < listMin (xboxYs pts xlow xhigh) then
    none
  else if 10 < boxallCount pts xlow xhigh ylow yhigh then
    some ((boxgoodCount pts xlow xhigh ylow yhigh : ℚ) /
      (boxallCount pts xlow xhigh ylow yhigh : ℚ))
  else
    none

/-- `Completeness.completeness_grid(xlim, ylim, resolution, xlogwin,
ylogwin)`.  `lg` and `pw` model the external `np.log10` and `10 **`
(`np.logspace(a, b, n) = 10 ** linspace(a, b, n)`).  The matrix is indexed
`z[j][i]` with `j` the y-row and `i` the x-column, as in the source. -/
def completeness_grid (lg pw : ℚ → ℚ) (pts : List InjPoint)
    (xlim ylim : ℚ × ℚ) (resolution : ℕ) (xlogwin ylogwin : ℚ) :
    List ℚ × List ℚ × List (List (Option ℚ)) :=
  let xgrid := (linspace (lg xlim.1) (lg xlim.2) resolution).map pw
  let ygrid := (linspace (lg ylim.1) (lg ylim.2) resolution).map pw
  let z := ygrid.map (fun y => xgrid.map (fun x =>
    cellValue pts (pw (lg x - xlogwin / 2)) (pw (lg x + xlogwin / 2))
      (pw (lg y - ylogwin / 2)) (pw (lg y + ylogwin / 2)) y))
  (xgrid, ygrid, z)

/-- Modelled from the spec: `rvsearch.utils.cartesian_product` — referenced
by `Completeness.interpolate` but not present in the provided `utils.py` —
produces every ordered pair `(x_i, y_j)` as Nx×Ny rows with the row index
varying slower than the column index. -/
def cartesian_product (xs ys : List ℚ) : List (ℚ × ℚ) :=
  xs.flatMap (fun x => ys.map (fun y => (x, y)))

/-- `np.searchsorted(grid, x)` with the default side (left) on a sorted
grid: the number of grid values strictly below `x`. -/
def searchsortedLeft (g : List ℚ) (x : ℚ) : ℕ :=
  g.countP (fun v => decide (v < x))

/-- The cell index scipy's `RegularGridInterpolator` locates for a query
coordinate: `searchsorted - 1`, clamped into `[0, len - 2]` (natural
subtraction performs the lower clamp). -/
def locateCell (g : List ℚ) (x : ℚ) : ℕ :=
  min (searchsortedLeft g x - 1) (g.length - 2)

/-- Float multiplication by a weight with NaN propagation: `0 * NaN = NaN`
under IEEE floats, so a `none` operand always yields `none`. -/
def nanMul (w : ℚ) (v : Option ℚ) : Option ℚ := v.map (fun c => w * c)

/-- Float addition with NaN propagation. -/
def nanAdd : Option ℚ → Option ℚ → Option ℚ
  | some a, some b => some (a + b)
  | _, _ => none

/-- Access `z[j][i]` in the `[y][x]`-indexed matrix (`none` = NaN). -/
def zAt (z : List (List (Option ℚ))) (j i : ℕ) : Option ℚ :=
  (z.getD j []).getD i none

/-- scipy `RegularGridInterpolator((xg, yg), values, method='linear')`
evaluated at `(x, y)`.  The source passes the transposed matrix `z.T` to the
interpolator, which indexes `values[xIdx][yIdx]`; composed with the
transposition the access is `z[yIdx][xIdx]`, which is embedded directly.
Each of the four corners of the located cell is multiplied by its bilinear
weight and the products summed, with NaN (`none`) propagating through
zero-weight products, as under IEEE floats. -/
def rgInterp (xg yg : List ℚ) (z : List (List (Option ℚ))) (x y : ℚ) :
    Option ℚ :=
  let i := locateCell xg x
  let j := locateCell yg y
  let tx := (x - xg.getD i 0) / (xg.getD (i + 1) 0 - xg.getD i 0)
  let ty := (y - yg.getD j 0) / (yg.getD (j + 1) 0 - yg.getD j 0)
  nanAdd (nanAdd (nanMul ((1 - tx) * (1 - ty)) (zAt z j i))
                 (nanMul ((1 - tx) * ty) (zAt z (j + 1) i)))
         (nanAdd (nanMul (tx * (1 - ty)) (zAt z j (i + 1)))
                 (nanMul (tx * ty) (zAt z (j + 1) (i + 1))))

/-- The part of a `Completeness` object's state that `interpolate` reads
(with no interpolator cached yet): the stored grid, if computed. -/
structure CompletenessState where
  grid : Option (List ℚ × List ℚ × List (List (Option ℚ)))

/-- `Completeness.interpolate(x, y)` (fresh interpolator): asserts the grid
exists (`AssertionError` otherwise), computes the unused cartesian product
of the axes, builds the interpolator on the transposed matrix and evaluates
it at `(x, y)`. -/
def interpolate (st : CompletenessState) (x y : ℚ) :
    Except String (Option ℚ) :=
  match st.grid with
  | none =>
      .error "Must run Completeness.completeness_grid before interpolating."
  | some (xg, yg, z) =>
      let _gi := cartesian_product xg yg
      .ok (rgInterp xg yg z x y)

/-! ### `Periodogram.eFAP_thresh` -/

/-- `np.sort` (ascending). -/
def npSort (l : List ℚ) : List ℚ := l.insertionSort (· ≤ ·)

/-- Python slice `l[a:b]` for nonnegative bounds. -/
def pySlice (l : List ℚ) (a b : ℕ) : List ℚ := (l.drop a).take (b - a)

/-- `crop_BIC = sBIC[int(0.5*len(sBIC)) : int(0.95*len(sBIC))]`: the middle
band of the sorted scores. -/
def cropBIC (sBIC : List ℚ) : List ℚ :=
  pySlice sBIC (pyInt ((1 / 2 : ℚ) * sBIC.length)).toNat
    (pyInt ((95 / 100 : ℚ) * sBIC.length)).toNat

/-- The bin edges of `np.histogram(data, bins=10)`: 11 evenly spaced edges
over the data range; numpy expands a degenerate range by `±0.5` and uses
`(0, 1)` for empty data. -/
def histEdges (data : List ℚ) : List ℚ :=
  if data = [] then linspace 0 1 11
  else if listMin data = listMax data then
    linspace (listMin data - 1 / 2) (listMax data + 1 / 2) 11
  else linspace (listMin data) (listMax data) 11

/-- The bin counts of `np.histogram(data, bins=10)`: values in
`[e_i, e_{i+1})`, with the last bin closed on the right. -/
def histCounts (data : List ℚ) (edges : List ℚ) : List ℕ :=
  (List.range 10).map (fun i =>
    data.countP (fun v =>
      decide (edges.getD i 0 ≤ v) &&
        (if i = 9 then decide (v ≤ edges.getD 10 0)
         else decide (v < edges.getD (i + 1) 0))))

/-- `cent = (edge[1:] + edge[:-1]) / 2`: the ten bin centers. -/
def binCenters (edges : List ℚ) : List ℚ :=
  (List.range 10).map (fun i => (edges.getD (i + 1) 0 + edges.getD i 0) / 2)

/-- `np.polyfit(x, y, 1)` by the least-squares normal equations:
`slope = (n·Σxy − Σx·Σy) / (n·Σx² − (Σx)²)`,
`intercept = (Σy − slope·Σx) / n`. -/
def polyfit1 (pts : List (ℚ × ℚ)) : ℚ × ℚ :=
  let n : ℚ := pts.length
  let sx := (pts.map (·.1)).foldl (· + ·) 0
  let sy := (pts.map (·.2)).foldl (· + ·) 0
  let sxy := (pts.map (fun p => p.1 * p.2)).foldl (· + ·) 0
  let sxx := (pts.map (fun p => p.1 * p.1)).foldl (· + ·) 0
  let slope := (n * sxy - sx * sy) / (n * sxx - sx * sx)
  (slope, (sy - slope * sx) / n)

/-- The `(slope, intercept)` of the log-linear fit inside `eFAP_thresh`:
histogram the mid band of the sorted Δ-BIC scores, normalize to a density,
apply the external base-10 logarithm `log10q` (`none` marks the non-finite
values that the `np.isfinite` masks filter out), and fit a line through the
finite (center, log-density) pairs. -/
def eFAPLinfit (log10q : ℚ → Option ℚ) (powerBic : List ℚ) : ℚ × ℚ :=
  let crop := cropBIC (npSort powerBic)
  let edges := histEdges crop
  let hist := histCounts crop edges
  let cent := binCenters edges
  let norm : ℚ := (hist.map (fun c => (c : ℚ))).foldl (· + ·) 0
  let nhist := hist.map (fun c => (c : ℚ) / norm)
  let loghist := nhist.map log10q
  polyfit1 ((cent.zip loghist).filterMap
    (fun p => p.2.map (fun yv => (p.1, yv))))

/-- The evaluation grid
`xmod = np.linspace(np.min(sBIC[np.isfinite(sBIC)]), 10*np.max(sBIC), 10000)`
(every rational is finite). -/
def eFAPXmod (powerBic : List ℚ) : List ℚ :=
  linspace (listMin (npSort powerBic)) (10 * listMax (npSort powerBic)) 10000

/-- The distances `np.abs(lfit - target)`. -/
def selDists (lfit : List ℚ) (target : ℚ) : List ℚ :=
  lfit.map (fun v => |v - target|)

/-- The index selected by
`np.where(np.abs(lfit - target) == np.min(np.abs(lfit - target)))[0][0]`:
the first index at minimal distance. -/
def selIdx (lfit : List ℚ) (target : ℚ) : ℕ :=
  firstIdxOf (listMin (selDists lfit target)) (selDists lfit target)

/-- `thresh[0]`: the evaluation point whose `lfit` value is closest to the
target per-trial false-alarm rate (first index on ties). -/
def threshSelect (xmod lfit : List ℚ) (target : ℚ) : ℚ :=
  xmod.getD (selIdx lfit target) 0

/-- `Periodogram.eFAP_thresh()`: `lfit = 10**(slope·xmod + intercept)` and
`bic_thresh` is the `xmod` point where `lfit` is closest to
`fap / num_pers`.  The external `np.log10` and `10.**` are the parameters
`log10q` and `pow10`. -/
def eFAP_thresh (log10q : ℚ → Option ℚ) (pow10 : ℚ → ℚ)
    (powerBic : List ℚ) (fap : ℚ) (num_pers : ℕ) : ℚ :=
  let fit := eFAPLinfit log10q powerBic
  let xmod := eFAPXmod powerBic
  let lfit := xmod.map (fun xv => pow10 (fit.1 * xv + fit.2))
  threshSelect xmod lfit (fap / (num_pers : ℚ))

/-- `fap_min = 10.**func(sBIC[-1]) * num_pers`, computed by `eFAP_thresh`
but not used in the threshold selection. -/
def eFAPFapMin (log10q : ℚ → Option ℚ) (pow10 : ℚ → ℚ)
    (powerBic : List ℚ) (num_pers : ℕ) : ℚ :=
  let fit := eFAPLinfit log10q powerBic
  pow10 (fit.1 * ((npSort powerBic).getLast?.getD 0) + fit.2) *
    (num_pers : ℚ)

/-! ## Claim C4 -/

theorem perKey_ne_kKey (n : ℕ) : perKey n ≠ kKey n := by
  intro h
  have hlen := congrArg String.length h
  rw [perKey, kKey, String.length_append, String.length_append] at hlen
  have h1 : "per".length = 3 := rfl
  have h2 : "k".length = 1 := rfl
  omega

theorem perKey_ne_tcKey (n : ℕ) : perKey n ≠ tcKey n := by
  intro h
  have hlen := congrArg String.length h
  rw [perKey, tcKey, String.length_append, String.length_append] at hlen
  have h1 : "per".length = 3 := rfl
  have h2 : "tc".length = 2 := rfl
  omega

theorem kKey_ne_tcKey (n : ℕ) : kKey n ≠ tcKey n := by
  intro h
  have hlen := congrArg String.length h
  rw [kKey, tcKey, String.length_append, String.length_append] at hlen
  have h1 : "k".length = 1 := rfl
  have h2 : "tc".length = 2 := rfl
  omega

theorem resetToDefault_get_of_not_mem (dflt : List (String × ℚ))
    (p : List (String × ℚ)) (k : String) (h : k ∉ dflt.map Prod.fst) :
    pdictGet (resetToDefault dflt p) k = pdictGet p k := by
  induction dflt generalizing p with
  | nil => rfl
  | cons kv t ih =>
      have hk : k ≠ kv.1 ∧ k ∉ t.map Prod.fst := by
        rw [List.map_cons, List.mem_cons] at h
        exact ⟨fun he => h (Or.inl he), fun hm => h (Or.inr hm)⟩
      rw [show resetToDefault (kv :: t) p =
        resetToDefault t (pdictSet p kv.1 kv.2) from rfl]
      rw [ih _ hk.2]
      exact pdictGet_set_ne _ _ _ _ hk.1

theorem resetToDefault_get_of_mem (dflt : List (String × ℚ))
    (p : List (String × ℚ)) (k : String) (v : ℚ)
    (hnodup : (dflt.map Prod.fst).Nodup) (hmem : (k, v) ∈ dflt) :
    pdictGet (resetToDefault dflt p) k = some v := by
  induction dflt generalizing p with
  | nil => cases hmem
  | cons kv t ih =>
      rw [List.map_cons, List.nodup_cons] at hnodup
      rcases List.mem_cons.mp hmem with heq | htail
      · subst heq
        rw [show resetToDefault ((k, v) :: t) p =
          resetToDefault t (pdictSet p k v) from rfl]
        rw [resetToDefault_get_of_not_mem t _ k hnodup.1]
        exact pdictGet_set_self _ _ _
      · rw [show resetToDefault (kv :: t) p =
          resetToDefault t (pdictSet p kv.1 kv.2) from rfl]
        exact ih _ hnodup.2 htail

/-- When both retry conditions fire, exactly three fits are attempted, with
the documented three input states. -/
theorem fitInputs_of_double_retry
    (fit : List (String × ℚ) → List (String × ℚ))
    (bicOf : List (String × ℚ) → ℚ) (baseline_bic floorBic : ℚ)
    (dflt : List (String × ℚ)) (n : ℕ) (times vels : List ℚ) (per : ℚ)
    (post : List (String × ℚ))
    (h1 : baseline_bic - bicOf (fit (firstFitInput dflt n per post)) <
      floorBic - 1)
    (h2 : baseline_bic - bicOf (fit (secondFitInput dflt n per
      (fit (firstFitInput dflt n per post)))) < floorBic - 1) :
    (fit_period_point fit bicOf baseline_bic floorBic dflt n times vels per
        post).fitInputs =
      [firstFitInput dflt n per post,
       secondFitInput dflt n per (fit (firstFitInput dflt n per post)),
       thirdFitInput dflt n times vels
         (fit (secondFitInput dflt n per
           (fit (firstFitInput dflt n per post))))] := by
  unfold fit_period_point
  rw [if_pos h1, if_pos h2]

/-- C4 (counterexample): the third retry fit is not performed at the trial
grid period with near-zero amplitude.  With default snapshot
`{per1 ↦ 10, k1 ↦ 5, tc1 ↦ 0}`, trial period 7, and scores that force both
retries, the parameter state passed to the third fit still has `per1 = 10`
(the snapshot period, not the grid period 7) and `k1 = 5` (the snapshot
amplitude, not 0). -/
theorem third_retry_not_at_grid_period :
    pdictGet ((fit_period_point (fun p => p) (fun _ => 100) 0 0
        [("per1", 10), ("k1", 5), ("tc1", 0)] 1 [1, 2] [0, 10] 7
        [("per1", 10), ("k1", 5), ("tc1", 0)]).fitInputs.getD 2 [])
      (perKey 1) = some 10 ∧
    pdictGet ((fit_period_point (fun p => p) (fun _ => 100) 0 0
        [("per1", 10), ("k1", 5), ("tc1", 0)] 1 [1, 2] [0, 10] 7
        [("per1", 10), ("k1", 5), ("tc1", 0)]).fitInputs.getD 2 [])
      (kKey 1) = some 5 ∧
    some (10 : ℚ) ≠ some (7 : ℚ) ∧ some (5 : ℚ) ≠ some (0 : ℚ) := by
  have hcond : (0 : ℚ) - 100 < 0 - 1 := by norm_num
  have htr := fitInputs_of_double_retry (fun p => p) (fun _ => 100) 0 0
    [("per1", 10), ("k1", 5), ("tc1", 0)] 1 [1, 2] [0, 10] 7
    [("per1", 10), ("k1", 5), ("tc1", 0)] hcond hcond
  rw [htr]
  refine ⟨?_, ?_, by decide, by decide⟩
  · show pdictGet (thirdFitInput [("per1", 10), ("k1", 5), ("tc1", 0)] 1
      [1, 2] [0, 10] (secondFitInput [("per1", 10), ("k1", 5), ("tc1", 0)]
        1 7 (firstFitInput [("per1", 10), ("k1", 5), ("tc1", 0)] 1 7
          [("per1", 10), ("k1", 5), ("tc1", 0)]))) (perKey 1) = some 10
    rw [thirdFitInput, pdictGet_set_ne _ _ _ _ (perKey_ne_tcKey 1)]
    exact resetToDefault_get_of_mem _ _ _ _ (by decide) (by decide)
  · show pdictGet (thirdFitInput [("per1", 10), ("k1", 5), ("tc1", 0)] 1
      [1, 2] [0, 10] (secondFitInput [("per1", 10), ("k1", 5), ("tc1", 0)]
        1 7 (firstFitInput [("per1", 10), ("k1", 5), ("tc1", 0)] 1 7
          [("per1", 10), ("k1", 5), ("tc1", 0)]))) (kKey 1) = some 5
    rw [thirdFitInput, pdictGet_set_ne _ _ _ _ (kKey_ne_tcKey 1)]
    exact resetToDefault_get_of_mem _ _ _ _ (by decide) (by decide)

/-- C4 (amended): when the first fit's `Δbic` is below `floor − 1`, the
second fit is attempted with the trial period set to the grid period and the
trial amplitude forced to zero; when the second is also below `floor − 1`,
the third fit is attempted with the trial time-of-conjunction set to the
observation time whose velocity deviates least from the mean — but at the
default-snapshot period and amplitude (the grid period is not re-applied and
the amplitude, seeded to the residual RMS in the snapshot, is not zeroed). -/
theorem retry_fit_inputs (fit : List (String × ℚ) → List (String × ℚ))
    (bicOf : List (String × ℚ) → ℚ) (baseline_bic floorBic : ℚ)
    (dflt : List (String × ℚ)) (n : ℕ) (times vels : List ℚ)
    (per dper dk : ℚ) (post : List (String × ℚ))
    (hnodup : (dflt.map Prod.fst).Nodup)
    (hper : (perKey n, dper) ∈ dflt)
    (hk : (kKey n, dk) ∈ dflt)
    (h1 : baseline_bic - bicOf (fit (firstFitInput dflt n per post)) <
      floorBic - 1)
    (h2 : baseline_bic - bicOf (fit (secondFitInput dflt n per
      (fit (firstFitInput dflt n per post)))) < floorBic - 1) :
    (fit_period_point fit bicOf baseline_bic floorBic dflt n times vels per
        post).fitInputs =
      [firstFitInput dflt n per post,
       secondFitInput dflt n per (fit (firstFitInput dflt n per post)),
       thirdFitInput dflt n times vels
         (fit (secondFitInput dflt n per
           (fit (firstFitInput dflt n per post))))] ∧
    (∀ p1 : List (String × ℚ),
      pdictGet (secondFitInput dflt n per p1) (perKey n) = some per ∧
      pdictGet (secondFitInput dflt n per p1) (kKey n) = some 0) ∧
    (∀ p2 : List (String × ℚ),
      pdictGet (thirdFitInput dflt n times vels p2) (tcKey n) =
        some (tcNew times vels) ∧
      pdictGet (thirdFitInput dflt n times vels p2) (perKey n) = some dper ∧
      pdictGet (thirdFitInput dflt n times vels p2) (kKey n) = some dk) := by
  refine ⟨fitInputs_of_double_retry fit bicOf baseline_bic floorBic dflt n
    times vels per post h1 h2, fun p1 => ⟨?_, ?_⟩, fun p2 => ⟨?_, ?_, ?_⟩⟩
  · rw [secondFitInput, pdictGet_set_ne _ _ _ _ (perKey_ne_kKey n)]
    exact pdictGet_set_self _ _ _
  · exact pdictGet_set_self _ _ _
  · exact pdictGet_set_self _ _ _
  · rw [thirdFitInput, pdictGet_set_ne _ _ _ _ (perKey_ne_tcKey n)]
    exact resetToDefault_get_of_mem _ _ _ _ hnodup hper
  · rw [thirdFitInput, pdictGet_set_ne _ _ _ _ (kKey_ne_tcKey n)]
    exact resetToDefault_get_of_mem _ _ _ _ hnodup hk

/-- Witness for `retry_fit_inputs` at a concrete input. -/
theorem retry_fit_inputs_witness :
    (fit_period_point (fun p => p) (fun _ => 100) 0 0
        [("per1", 10), ("k1", 5), ("tc1", 0)] 1 [1, 2] [0, 10] 7
        [("per1", 10), ("k1", 5), ("tc1", 0)]).fitInputs =
      [firstFitInput [("per1", 10), ("k1", 5), ("tc1", 0)] 1 7
        [("per1", 10), ("k1", 5), ("tc1", 0)],
       secondFitInput [("per1", 10), ("k1", 5), ("tc1", 0)] 1 7
        ((fun p => p) (firstFitInput [("per1", 10), ("k1", 5), ("tc1", 0)]
          1 7 [("per1", 10), ("k1", 5), ("tc1", 0)])),
       thirdFitInput [("per1", 10), ("k1", 5), ("tc1", 0)] 1 [1, 2] [0, 10]
        ((fun p => p) (secondFitInput [("per1", 10), ("k1", 5), ("tc1", 0)]
          1 7 ((fun p => p) (firstFitInput
            [("per1", 10), ("k1", 5), ("tc1", 0)] 1 7
            [("per1", 10), ("k1", 5), ("tc1", 0)]))))] ∧
    pdictGet (secondFitInput [("per1", 10), ("k1", 5), ("tc1", 0)] 1 7
      [("per1", 7), ("k1", 5), ("tc1", 0)]) (perKey 1) = some 7 ∧
    pdictGet (thirdFitInput [("per1", 10), ("k1", 5), ("tc1", 0)] 1 [1, 2]
      [0, 10] [("per1", 7), ("k1", 0), ("tc1", 0)]) (perKey 1) = some 10 := by
  have hcond : (0 : ℚ) - 100 < 0 - 1 := by norm_num
  have h := retry_fit_inputs (fun p => p) (fun _ => 100) 0 0
    [("per1", 10), ("k1", 5), ("tc1", 0)] 1 [1, 2] [0, 10] 7 10 5
    [("per1", 10), ("k1", 5), ("tc1", 0)] (by decide) (by decide) (by decide)
    hcond hcond
  exact ⟨h.1, (h.2.1 [("per1", 7), ("k1", 5), ("tc1", 0)]).1,
    (h.2.2 [("per1", 7), ("k1", 0), ("tc1", 0)]).2.1⟩

/-! ## Claim C7 -/

/-- Access into a doubly mapped matrix. -/
theorem zAt_map_map (ys xs : List ℚ) (f : ℚ → ℚ → Option ℚ) (j i : ℕ)
    (hj : j < ys.length) (hi : i < xs.length) :
    zAt (ys.map (fun yv => xs.map (fun xv => f yv xv))) j i =
      f ys[j] xs[i] := by
  have h1 : j < (ys.map (fun yv => xs.map (fun xv => f yv xv))).length := by
    rwa [List.length_map]
  have e1 : (ys.map (fun yv => xs.map (fun xv => f yv xv))).getD j [] =
      (ys.map (fun yv => xs.map (fun xv => f yv xv)))[j] :=
    List.getD_eq_getElem _ _ h1
  rw [zAt, e1, List.getElem_map]
  have h2 : i < (xs.map (fun xv => f ys[j] xv)).length := by
    rwa [List.length_map]
  have e2 : (xs.map (fun xv => f ys[j] xv)).getD i none =
      (xs.map (fun xv => f ys[j] xv))[i] := List.getD_eq_getElem _ _ h2
  rw [e2, List.getElem_map]

/-- C7: a completeness-grid cell is undefined when no injected point falls
in the x-window or `y` lies outside the y-range of those points; otherwise,
when more than 10 injected points lie in both windows, the cell equals
recovered/total — a value in `[0, 1]` — and with at most 10 points it is
undefined.  The last conjunct ties the cells of `completeness_grid` to this
characterization at the log-space windows around each grid node. -/
theorem completeness_cell_spec (pts : List InjPoint)
    (xlow xhigh ylow yhigh y : ℚ) :
    ((xboxYs pts xlow xhigh = [] ∨ y > listMax (xboxYs pts xlow xhigh) ∨
        y < listMin (xboxYs pts xlow xhigh)) →
      cellValue pts xlow xhigh ylow yhigh y = none) ∧
    (¬ (xboxYs pts xlow xhigh = [] ∨ y > listMax (xboxYs pts xlow xhigh) ∨
        y < listMin (xboxYs pts xlow xhigh)) →
      (10 < boxallCount pts xlow xhigh ylow yhigh →
        cellValue pts xlow xhigh ylow yhigh y =
          some ((boxgoodCount pts xlow xhigh ylow yhigh : ℚ) /
            (boxallCount pts xlow xhigh ylow yhigh : ℚ)) ∧
        0 ≤ (boxgoodCount pts xlow xhigh ylow yhigh : ℚ) /
            (boxallCount pts xlow xhigh ylow yhigh : ℚ) ∧
        (boxgoodCount pts xlow xhigh ylow yhigh : ℚ) /
            (boxallCount pts xlow xhigh ylow yhigh : ℚ) ≤ 1) ∧
      (boxallCount pts xlow xhigh ylow yhigh ≤ 10 →
        cellValue pts xlow xhigh ylow yhigh y = none)) ∧
    (∀ (lg pw : ℚ → ℚ) (xlim ylim : ℚ × ℚ) (res : ℕ) (xw yw : ℚ) (i j : ℕ),
      i < res → j < res →
      zAt (completeness_grid lg pw pts xlim ylim res xw yw).2.2 j i =
        cellValue pts
          (pw (lg ((completeness_grid lg pw pts xlim ylim res xw
            yw).1.getD i 0) - xw / 2))
          (pw (lg ((completeness_grid lg pw pts xlim ylim res xw
            yw).1.getD i 0) + xw / 2))
          (pw (lg ((completeness_grid lg pw pts xlim ylim res xw
            yw).2.1.getD j 0) - yw / 2))
          (pw (lg ((completeness_grid lg pw pts xlim ylim res xw
            yw).2.1.getD j 0) + yw / 2))
          ((completeness_grid lg pw pts xlim ylim res xw yw).2.1.getD
            j 0)) := by
  refine ⟨fun h => by rw [cellValue, if_pos h], fun h => ⟨fun hc => ?_,
    fun hc => ?_⟩, ?_⟩
  · have hgoodle : boxgoodCount pts xlow xhigh ylow yhigh ≤
        boxallCount pts xlow xhigh ylow yhigh := by
      apply List.countP_mono_left
      intro pt _ hpt
      rw [Bool.and_eq_true] at hpt
      exact hpt.2
    have hallpos : (0 : ℚ) < (boxallCount pts xlow xhigh ylow yhigh : ℚ) := by
      have : 0 < boxallCount pts xlow xhigh ylow yhigh := by omega
      exact_mod_cast this
    refine ⟨by rw [cellValue, if_neg h, if_pos hc], ?_, ?_⟩
    · positivity
    · rw [div_le_one hallpos]
      exact_mod_cast hgoodle
  · rw [cellValue, if_neg h, if_neg (by omega)]
  · intro lg pw xlim ylim res xw yw i j hi hj
    have hxlen : ((linspace (lg xlim.1) (lg xlim.2) res).map pw).length =
        res := by rw [List.length_map, length_linspace]
    have hylen : ((linspace (lg ylim.1) (lg ylim.2) res).map pw).length =
        res := by rw [List.length_map, length_linspace]
    have hz := zAt_map_map ((linspace (lg ylim.1) (lg ylim.2) res).map pw)
      ((linspace (lg xlim.1) (lg xlim.2) res).map pw)
      (fun yv xv => cellValue pts (pw (lg xv - xw / 2)) (pw (lg xv + xw / 2))
        (pw (lg yv - yw / 2)) (pw (lg yv + yw / 2)) yv) j i
      (by rw [hylen]; exact hj) (by rw [hxlen]; exact hi)
    rw [show (completeness_grid lg pw pts xlim ylim res xw yw).2.2 =
      ((linspace (lg ylim.1) (lg ylim.2) res).map pw).map
        (fun yv => ((linspace (lg xlim.1) (lg xlim.2) res).map pw).map
          (fun xv => cellValue pts (pw (lg xv - xw / 2))
            (pw (lg xv + xw / 2)) (pw (lg yv - yw / 2))
            (pw (lg yv + yw / 2)) yv)) from rfl]
    rw [hz]
    rw [show ((completeness_grid lg pw pts xlim ylim res xw yw).1.getD i 0) =
      ((linspace (lg xlim.1) (lg xlim.2) res).map pw)[i] from
      List.getD_eq_getElem _ _ (by
        show i < ((linspace (lg xlim.1) (lg xlim.2) res).map pw).length
        rw [hxlen]; exact hi)]
    rw [show ((completeness_grid lg pw pts xlim ylim res xw yw).2.1.getD
      j 0) = ((linspace (lg ylim.1) (lg ylim.2) res).map pw)[j] from
      List.getD_eq_getElem _ _ (by
        show j < ((linspace (lg ylim.1) (lg ylim.2) res).map pw).length
        rw [hylen]; exact hj)]

/-- A twelve-record recoveries sample: every record has `x = 5`, y-values
`1..12`, and eight of the twelve were recovered. -/
def injSample : List InjPoint :=
  [⟨5, 1, true⟩, ⟨5, 2, true⟩, ⟨5, 3, true⟩, ⟨5, 4, true⟩,
   ⟨5, 5, true⟩, ⟨5, 6, true⟩, ⟨5, 7, true⟩, ⟨5, 8, true⟩,
   ⟨5, 9, false⟩, ⟨5, 10, false⟩, ⟨5, 11, false⟩, ⟨5, 12, false⟩]

set_option maxRecDepth 8000 in
/-- Witness for `completeness_cell_spec`: 12 points in the window, 8
recovered, cell value `8/12`. -/
theorem completeness_cell_spec_witness :
    boxallCount injSample 0 10 0 20 = 12 ∧
    boxgoodCount injSample 0 10 0 20 = 8 ∧
    cellValue injSample 0 10 0 20 5 = some ((8 : ℚ) / 12) ∧
    0 ≤ (8 : ℚ) / 12 ∧ (8 : ℚ) / 12 ≤ 1 := by
  have hA : boxallCount injSample 0 10 0 20 = 12 := by decide
  have hG : boxgoodCount injSample 0 10 0 20 = 8 := by decide
  have h2 := ((completeness_cell_spec injSample 0 10 0 20 5).2.1
    (by decide)).1 (by decide)
  have hcast : ((boxgoodCount injSample 0 10 0 20 : ℚ) /
      (boxallCount injSample 0 10 0 20 : ℚ)) = (8 : ℚ) / 12 := by
    rw [hA, hG]
    norm_num
  exact ⟨hA, hG, h2.1.trans (congrArg some hcast), hcast ▸ h2.2.1,
    hcast ▸ h2.2.2⟩

/-! ## Claim C8 -/

/-- On a strictly increasing grid, the left-sided search of a node value
returns the node index. -/
theorem searchsortedLeft_getElem (g : List ℚ) (hs : g.Pairwise (· < ·))
    (a : ℕ) (ha : a < g.length) :
    searchsortedLeft g g[a] = a := by
  induction g generalizing a with
  | nil => simp at ha
  | cons hd t ih =>
      rw [List.pairwise_cons] at hs
      rcases a with _ | a
      · show searchsortedLeft (hd :: t) hd = 0
        rw [searchsortedLeft, List.countP_cons]
        have h0 : List.countP (fun v => decide (v < hd)) t = 0 := by
          rw [List.countP_eq_zero]
          intro v hv
          simp only [decide_eq_true_eq]
          exact not_lt_of_gt (hs.1 v hv)
        simp [h0]
      · have hat : a < t.length := by
          simpa using Nat.lt_of_succ_lt_succ ha
        show searchsortedLeft (hd :: t) (hd :: t)[a + 1] = a + 1
        rw [List.getElem_cons_succ, searchsortedLeft, List.countP_cons]
        have hmem : t[a] ∈ t := List.getElem_mem _
        have hih := ih hs.2 a hat
        rw [searchsortedLeft] at hih
        rw [hih]
        simp [hs.1 _ hmem]

/-- The located cell index for a node query is the node index minus one,
clamped at zero (and at the top for the last node). -/
theorem locateCell_node (g : List ℚ) (hs : g.Pairwise (· < ·))
    (hlen : 2 ≤ g.length) (a : ℕ) (ha : a < g.length) :
    locateCell g g[a] = a - 1 := by
  rw [locateCell, searchsortedLeft_getElem g hs a ha]
  omega

/-- Evaluation of the bilinear blend when all four corners are defined. -/
theorem rgInterp_eval (xg yg : List ℚ) (z : List (List (Option ℚ)))
    (x y : ℚ) (i j : ℕ) (tx ty : ℚ) (c00 c01 c10 c11 : ℚ)
    (hi : locateCell xg x = i) (hj : locateCell yg y = j)
    (htx : (x - xg.getD i 0) / (xg.getD (i + 1) 0 - xg.getD i 0) = tx)
    (hty : (y - yg.getD j 0) / (yg.getD (j + 1) 0 - yg.getD j 0) = ty)
    (h00 : zAt z j i = some c00) (h01 : zAt z (j + 1) i = some c01)
    (h10 : zAt z j (i + 1) = some c10)
    (h11 : zAt z (j + 1) (i + 1) = some c11) :
    rgInterp xg yg z x y =
      some ((1 - tx) * (1 - ty) * c00 + ((1 - tx) * ty * c01 +
        (tx * (1 - ty) * c10 + tx * ty * c11))) := by
  rw [rgInterp]
  simp only [hi, hj, htx, hty, h00, h01, h10, h11, nanMul, Option.map_some',
    nanAdd]
  ring_nf

/-- C8 (counterexample): a node query does not return the stored node value
when a neighbouring cell is undefined: on the 2×2 grid with axes `[1, 2]`,
node value `z[0][0] = 1` and the other three cells NaN, querying exactly at
the node `(1, 1)` returns NaN (`0 · NaN = NaN` in the bilinear blend), not
the stored value 1. -/
theorem interpolate_nan_neighbor :
    interpolate ⟨some ([1, 2], [1, 2], [[some 1, none], [none, none]])⟩
      1 1 = .ok none ∧
    zAt [[some 1, none], [none, none]] 0 0 = some 1 ∧
    (([1, 2] : List ℚ).getD 0 0 = 1 ∧ (([1, 2] : List ℚ)).getD 0 0 = 1) ∧
    (Except.ok (none : Option ℚ) : Except String (Option ℚ)) ≠
      .ok (some 1) := by
  refine ⟨rfl, rfl, ⟨rfl, rfl⟩, by simp⟩

/-- C8 (amended): querying `interpolate` exactly at a grid node returns the
stored node value whenever all four corner cells of the located grid cell
are defined (in particular the node itself); and querying with no computed
grid fails with the not-computed assertion error. -/
theorem interpolate_node_round_trip (xg yg : List ℚ)
    (z : List (List (Option ℚ))) (a b : ℕ) (c00 c01 c10 c11 : ℚ)
    (hxs : xg.Pairwise (· < ·)) (hys : yg.Pairwise (· < ·))
    (hxlen : 2 ≤ xg.length) (hylen : 2 ≤ yg.length)
    (ha : a < xg.length) (hb : b < yg.length)
    (h00 : zAt z (b - 1) (a - 1) = some c00)
    (h01 : zAt z (b - 1 + 1) (a - 1) = some c01)
    (h10 : zAt z (b - 1) (a - 1 + 1) = some c10)
    (h11 : zAt z (b - 1 + 1) (a - 1 + 1) = some c11) :
    interpolate ⟨some (xg, yg, z)⟩ xg[a] yg[b] = .ok (zAt z b a) ∧
    (∀ x y : ℚ, interpolate ⟨none⟩ x y =
      .error "Must run Completeness.completeness_grid before interpolating.") := by
  refine ⟨?_, fun x y => rfl⟩
  show Except.ok (rgInterp xg yg z xg[a] yg[b]) = .ok (zAt z b a)
  congr 1
  have hi := locateCell_node xg hxs hxlen a ha
  have hj := locateCell_node yg hys hylen b hb
  have hgx1 : a - 1 < xg.length := by omega
  have hgx2 : a - 1 + 1 < xg.length := by omega
  have hgy1 : b - 1 < yg.length := by omega
  have hgy2 : b - 1 + 1 < yg.length := by omega
  have egx1 : xg.getD (a - 1) 0 = xg[a - 1] := List.getD_eq_getElem _ _ hgx1
  have egx2 : xg.getD (a - 1 + 1) 0 = xg[a - 1 + 1] :=
    List.getD_eq_getElem _ _ hgx2
  have egy1 : yg.getD (b - 1) 0 = yg[b - 1] := List.getD_eq_getElem _ _ hgy1
  have egy2 : yg.getD (b - 1 + 1) 0 = yg[b - 1 + 1] :=
    List.getD_eq_getElem _ _ hgy2
  rcases Nat.eq_zero_or_pos a with haz | hapos
  · rcases Nat.eq_zero_or_pos b with hbz | hbpos
    · subst haz hbz
      have htx : (xg[0] - xg.getD (0 - 1) 0) /
          (xg.getD (0 - 1 + 1) 0 - xg.getD (0 - 1) 0) = 0 := by
        rw [egx1]
        simp
      have hty : (yg[0] - yg.getD (0 - 1) 0) /
          (yg.getD (0 - 1 + 1) 0 - yg.getD (0 - 1) 0) = 0 := by
        rw [egy1]
        simp
      rw [rgInterp_eval xg yg z xg[0] yg[0] (0 - 1) (0 - 1) 0 0 c00 c01 c10
        c11 hi hj htx hty h00 h01 h10 h11]
      rw [show zAt z 0 0 = some c00 from h00]
      congr 1
      ring
    · subst haz
      obtain ⟨b', rfl⟩ : ∃ b', b = b' + 1 :=
        ⟨b - 1, by omega⟩
      have htx : (xg[0] - xg.getD (0 - 1) 0) /
          (xg.getD (0 - 1 + 1) 0 - xg.getD (0 - 1) 0) = 0 := by
        rw [egx1]
        simp
      have hne : yg[b' + 1 - 1] < yg[b' + 1 - 1 + 1] := by
        rw [List.pairwise_iff_getElem] at hys
        exact hys _ _ hgy1 hgy2 (by omega)
      have hty : (yg[b' + 1] - yg.getD (b' + 1 - 1) 0) /
          (yg.getD (b' + 1 - 1 + 1) 0 - yg.getD (b' + 1 - 1) 0) = 1 := by
        rw [egy1, egy2]
        exact div_self (sub_ne_zero.mpr hne.ne')
      rw [rgInterp_eval xg yg z xg[0] yg[b' + 1] (0 - 1) (b' + 1 - 1) 0 1
        c00 c01 c10 c11 hi hj htx hty h00 h01 h10 h11]
      rw [show zAt z (b' + 1) 0 = some c01 from h01]
      congr 1
      ring
  · obtain ⟨a', rfl⟩ : ∃ a', a = a' + 1 := ⟨a - 1, by omega⟩
    have hnex : xg[a' + 1 - 1] < xg[a' + 1 - 1 + 1] := by
      rw [List.pairwise_iff_getElem] at hxs
      exact hxs _ _ hgx1 hgx2 (by omega)
    have htx : (xg[a' + 1] - xg.getD (a' + 1 - 1) 0) /
        (xg.getD (a' + 1 - 1 + 1) 0 - xg.getD (a' + 1 - 1) 0) = 1 := by
      rw [egx1, egx2]
      exact div_self (sub_ne_zero.mpr hnex.ne')
    rcases Nat.eq_zero_or_pos b with hbz | hbpos
    · subst hbz
      have hty : (yg[0] - yg.getD (0 - 1) 0) /
          (yg.getD (0 - 1 + 1) 0 - yg.getD (0 - 1) 0) = 0 := by
        rw [egy1]
        simp
      rw [rgInterp_eval xg yg z xg[a' + 1] yg[0] (a' + 1 - 1) (0 - 1) 1 0
        c00 c01 c10 c11 hi hj htx hty h00 h01 h10 h11]
      rw [show zAt z 0 (a' + 1) = some c10 from h10]
      congr 1
      ring
    · obtain ⟨b', rfl⟩ : ∃ b', b = b' + 1 := ⟨b - 1, by omega⟩
      have hney : yg[b' + 1 - 1] < yg[b' + 1 - 1 + 1] := by
        rw [List.pairwise_iff_getElem] at hys
        exact hys _ _ hgy1 hgy2 (by omega)
      have hty : (yg[b' + 1] - yg.getD (b' + 1 - 1) 0) /
          (yg.getD (b' + 1 - 1 + 1) 0 - yg.getD (b' + 1 - 1) 0) = 1 := by
        rw [egy1, egy2]
        exact div_self (sub_ne_zero.mpr hney.ne')
      rw [rgInterp_eval xg yg z xg[a' + 1] yg[b' + 1] (a' + 1 - 1)
        (b' + 1 - 1) 1 1 c00 c01 c10 c11 hi hj htx hty h00 h01 h10 h11]
      rw [show zAt z (b' + 1) (a' + 1) = some c11 from h11]
      congr 1
      ring

/-- Witness for `interpolate_node_round_trip` on a fully defined 2×2 grid. -/
theorem interpolate_node_round_trip_witness :
    interpolate ⟨some ([1, 2], [1, 2],
      [[some 3, some 4], [some 5, some 6]])⟩ 2 2 =
      .ok (zAt [[some 3, some 4], [some 5, some 6]] 1 1) ∧
    interpolate ⟨none⟩ 0 0 =
      .error "Must run Completeness.completeness_grid before interpolating." := by
  have h := interpolate_node_round_trip [1, 2] [1, 2]
    [[some 3, some 4], [some 5, some 6]] 1 1 3 5 4 6
    (by decide) (by decide) (by decide) (by decide) (by decide) (by decide)
    rfl rfl rfl rfl
  exact ⟨h.1, h.2 0 0⟩

/-! ## Claim C9 -/

/-- C9: the system's progress helper exposes the absolute-position update
`update_to`, and the verbose path of `run_injections` reports each completed
trial by incrementing the single shared counter and passing its value to
`update_to`: after `k` completed trials the counter equals `k`, the bar sits
at absolute position `k`, and the successive positions passed to `update_to`
were `1, 2, …, k`. -/
theorem run_injections_progress_reporting (bar : TqdmUpTo) (p total k : ℕ) :
    (bar.update_to p).pos = p ∧
    (injectionsProgress total k).counter = k ∧
    (injectionsProgress total k).pbar.pos = k ∧
    (injectionsProgress total k).calls = (List.range k).map (· + 1) := by
  refine ⟨rfl, ?_⟩
  induction k with
  | zero => exact ⟨rfl, rfl, rfl⟩
  | succ k ih =>
      refine ⟨?_, ?_, ?_⟩
      · show (runOneProgress (injectionsProgress total k)).counter = k + 1
        rw [runOneProgress, ih.1]
      · show (runOneProgress (injectionsProgress total k)).pbar.pos = k + 1
        rw [runOneProgress]
        show (injectionsProgress total k).counter + 1 = k + 1
        rw [ih.1]
      · show (runOneProgress (injectionsProgress total k)).calls =
          (List.range (k + 1)).map (· + 1)
        rw [runOneProgress]
        show (injectionsProgress total k).calls ++
          [(injectionsProgress total k).counter + 1] = _
        rw [ih.1, ih.2.2, List.range_succ, List.map_append]
        rfl

/-! ## Claim C6: infrastructure on `listMin` and `firstIdxOf` -/

theorem foldl_min_le_init (xs : List ℚ) (a : ℚ) : xs.foldl min a ≤ a := by
  induction xs generalizing a with
  | nil => simp
  | cons y t ih =>
      show t.foldl min (min a y) ≤ a
      exact le_trans (ih (min a y)) (min_le_left a y)

theorem foldl_min_le_mem (xs : List ℚ) (a x : ℚ) (hx : x ∈ xs) :
    xs.foldl min a ≤ x := by
  induction xs generalizing a with
  | nil => cases hx
  | cons y t ih =>
      rcases List.mem_cons.mp hx with rfl | hxt
      · exact le_trans (foldl_min_le_init t (min a x)) (min_le_right a x)
      · exact ih hxt (a := min a y)

theorem foldl_min_mem (xs : List ℚ) (a : ℚ) :
    xs.foldl min a = a ∨ xs.foldl min a ∈ xs := by
  induction xs generalizing a with
  | nil => exact Or.inl rfl
  | cons y t ih =>
      rcases ih (min a y) with h | h
      · rcases min_choice a y with hm | hm
        · exact Or.inl (by rw [show (y :: t).foldl min a =
            t.foldl min (min a y) from rfl, h, hm])
        · refine Or.inr (List.mem_cons.mpr (Or.inl ?_))
          rw [show (y :: t).foldl min a = t.foldl min (min a y) from rfl,
            h, hm]
      · exact Or.inr (List.mem_cons.mpr (Or.inr h))

theorem listMin_le_of_mem (l : List ℚ) (x : ℚ) (hx : x ∈ l) :
    listMin l ≤ x := by
  cases l with
  | nil => cases hx
  | cons y t =>
      rcases List.mem_cons.mp hx with rfl | hxt
      · exact foldl_min_le_init t x
      · exact foldl_min_le_mem t y x hxt

theorem listMin_mem (l : List ℚ) (h : l ≠ []) : listMin l ∈ l := by
  cases l with
  | nil => exact absurd rfl h
  | cons y t =>
      rcases foldl_min_mem t y with he | he
      · exact List.mem_cons.mpr (Or.inl (by rw [listMin, he]))
      · exact List.mem_cons.mpr (Or.inr (by rw [listMin]; exact he))

theorem foldl_min_eq_min_listMin (xs : List ℚ) (a : ℚ) (h : xs ≠ []) :
    xs.foldl min a = min a (listMin xs) := by
  induction xs generalizing a with
  | nil => exact absurd rfl h
  | cons y t ih =>
      cases t with
      | nil => rfl
      | cons z t' =>
          show (z :: t').foldl min (min a y) = _
          rw [ih (min a y) (by simp), min_assoc]
          congr 1
          exact (ih y (by simp)).symm

theorem listMin_cons (x : ℚ) (xs : List ℚ) (h : xs ≠ []) :
    listMin (x :: xs) = min x (listMin xs) :=
  foldl_min_eq_min_listMin xs x h

theorem firstIdxOf_lt_length (x : ℚ) (l : List ℚ) (h : x ∈ l) :
    firstIdxOf x l < l.length := by
  induction l with
  | nil => cases h
  | cons y t ih =>
      by_cases hy : y = x
      · simp [firstIdxOf, hy]
      · rcases List.mem_cons.mp h with rfl | hxt
        · exact absurd rfl hy
        · simpa [firstIdxOf, hy] using ih hxt

theorem getD_firstIdxOf (x : ℚ) (l : List ℚ) (h : x ∈ l) :
    l.getD (firstIdxOf x l) 0 = x := by
  induction l with
  | nil => cases h
  | cons y t ih =>
      by_cases hy : y = x
      · simp [firstIdxOf, hy]
      · rcases List.mem_cons.mp h with rfl | hxt
        · exact absurd rfl hy
        · simpa [firstIdxOf, hy] using ih hxt

theorem getD_ne_of_lt_firstIdxOf (x : ℚ) (l : List ℚ) (j : ℕ)
    (hj : j < firstIdxOf x l) : l.getD j 0 ≠ x := by
  induction l generalizing j with
  | nil => simp [firstIdxOf] at hj
  | cons y t ih =>
      by_cases hy : y = x
      · simp [firstIdxOf, hy] at hj
      · rcases j with _ | j
        · simpa using hy
        · have : j < firstIdxOf x t := by
            simpa [firstIdxOf, hy] using hj
          simpa using ih j this

theorem getD_mem_of_lt (l : List ℚ) (j : ℕ) (hj : j < l.length) :
    l.getD j 0 ∈ l := by
  rw [List.getD_eq_getElem _ _ hj]
  exact List.getElem_mem hj

/-- Key inequality: for `a < b` the gap `|b − t| − |a − t|` is non-increasing
in `t`. -/
theorem abs_gap_antitone (a b c c' : ℚ) (hab : a < b) (hcc : c ≤ c')
    (h : |b - c| ≤ |a - c|) : |b - c'| ≤ |a - c'| := by
  rcases abs_cases (b - c) with ⟨e1, s1⟩ | ⟨e1, s1⟩ <;>
    rcases abs_cases (a - c) with ⟨e2, s2⟩ | ⟨e2, s2⟩ <;>
    rcases abs_cases (b - c') with ⟨e3, s3⟩ | ⟨e3, s3⟩ <;>
    rcases abs_cases (a - c') with ⟨e4, s4⟩ | ⟨e4, s4⟩ <;>
    rw [e1, e2] at h <;> rw [e3, e4] <;> linarith

/-- Raising the target moves the selected index left (weakly) along a
strictly decreasing `lfit`. -/
theorem selIdx_antitone (lfit : List ℚ) (hdec : lfit.Pairwise (· > ·))
    (hne : lfit ≠ []) (c c' : ℚ) (hcc : c ≤ c') :
    selIdx lfit c' ≤ selIdx lfit c := by
  by_contra hcon
  push_neg at hcon
  have hdne : selDists lfit c ≠ [] := by
    rw [selDists]
    simpa using hne
  have hdne' : selDists lfit c' ≠ [] := by
    rw [selDists]
    simpa using hne
  have hilen : selIdx lfit c < (selDists lfit c).length :=
    firstIdxOf_lt_length _ _ (listMin_mem _ hdne)
  have hilen' : selIdx lfit c' < (selDists lfit c').length :=
    firstIdxOf_lt_length _ _ (listMin_mem _ hdne')
  have hlen : (selDists lfit c).length = lfit.length := by
    rw [selDists, List.length_map]
  have hlen' : (selDists lfit c').length = lfit.length := by
    rw [selDists, List.length_map]
  set i := selIdx lfit c with hidef
  set i' := selIdx lfit c' with hidef'
  -- distances at the two indices
  have hdi : (selDists lfit c).getD i 0 = listMin (selDists lfit c) :=
    getD_firstIdxOf _ _ (listMin_mem _ hdne)
  have hdi' : (selDists lfit c').getD i' 0 = listMin (selDists lfit c') :=
    getD_firstIdxOf _ _ (listMin_mem _ hdne')
  have hmin_le : (selDists lfit c).getD i 0 ≤ (selDists lfit c).getD i' 0 := by
    rw [hdi]
    exact listMin_le_of_mem _ _ (getD_mem_of_lt _ _ (by
      rw [hlen, ← hlen']; exact hilen'))
  have hne_at_i : (selDists lfit c').getD i 0 ≠ listMin (selDists lfit c') :=
    getD_ne_of_lt_firstIdxOf _ _ _ hcon
  have hmin_le' : listMin (selDists lfit c') ≤ (selDists lfit c').getD i 0 :=
    listMin_le_of_mem _ _ (getD_mem_of_lt _ _ (by
      rw [hlen', ← hlen]; exact hilen))
  have hstrict : (selDists lfit c').getD i' 0 < (selDists lfit c').getD i 0 := by
    rw [hdi']
    exact lt_of_le_of_ne hmin_le' (Ne.symm hne_at_i)
  -- translate to |lfit[..] - target| form
  have hib : i < lfit.length := by rw [← hlen]; exact hilen
  have hib' : i' < lfit.length := by rw [← hlen']; exact hilen'
  have hmapc : ∀ (t : ℚ) (j : ℕ) (hj : j < lfit.length),
      (selDists lfit t).getD j 0 = |lfit[j] - t| := by
    intro t j hj
    rw [selDists, List.getD_eq_getElem _ _ (by
      rw [List.length_map]; exact hj), List.getElem_map]
  have hAB : lfit[i'] < lfit[i] := by
    rw [List.pairwise_iff_getElem] at hdec
    exact hdec i i' hib hib' hcon
  have h1 : |lfit[i] - c| ≤ |lfit[i'] - c| := by
    rw [← hmapc c i hib, ← hmapc c i' hib']
    exact hmin_le
  have h2 : |lfit[i'] - c'| < |lfit[i] - c'| := by
    rw [← hmapc c' i hib, ← hmapc c' i' hib']
    exact hstrict
  exact absurd (abs_gap_antitone lfit[i'] lfit[i] c c' hAB hcc h1)
    (not_le.mpr h2)

theorem selIdx_lt_length (lfit : List ℚ) (t : ℚ) (hne : lfit ≠ []) :
    selIdx lfit t < lfit.length := by
  have hdne : selDists lfit t ≠ [] := by
    rw [selDists]
    simpa using hne
  have h := firstIdxOf_lt_length _ _ (listMin_mem _ hdne)
  rwa [show (selDists lfit t).length = lfit.length from by
    rw [selDists, List.length_map]] at h

theorem linspace_getD_mono (a b : ℚ) (n : ℕ) (hab : a ≤ b) (i j : ℕ)
    (hij : i ≤ j) (hj : j < n) :
    (linspace a b n).getD i 0 ≤ (linspace a b n).getD j 0 := by
  have hi : i < n := lt_of_le_of_lt (lt_of_le_of_lt hij (Nat.lt_succ_self j)
    |> fun _ => hij) hj
  have e1 : (linspace a b n).getD i 0 = a + (i : ℚ) * (b - a) /
      ((n : ℚ) - 1) := by
    rw [List.getD_eq_getElem _ _ (by rw [length_linspace]; exact hi),
      getElem_linspace]
  have e2 : (linspace a b n).getD j 0 = a + (j : ℚ) * (b - a) /
      ((n : ℚ) - 1) := by
    rw [List.getD_eq_getElem _ _ (by rw [length_linspace]; exact hj),
      getElem_linspace]
  rw [e1, e2]
  by_cases hn1 : n ≤ 1
  · have : i = 0 := by omega
    have hj0 : j = 0 := by omega
    rw [this, hj0]
  · push_neg at hn1
    have hn : (0 : ℚ) < (n : ℚ) - 1 := by
      have h2 : (2 : ℚ) ≤ (n : ℚ) := by exact_mod_cast hn1
      linarith
    have hijq : (i : ℚ) ≤ (j : ℚ) := by exact_mod_cast hij
    have : (i : ℚ) * (b - a) ≤ (j : ℚ) * (b - a) :=
      mul_le_mul_of_nonneg_right hijq (by linarith)
    have := (div_le_div_iff_of_pos_right hn).mpr this
    linarith

theorem linspace_getD_zero (a b : ℚ) (n : ℕ) (hn : 0 < n) :
    (linspace a b n).getD 0 0 = a := by
  rw [List.getD_eq_getElem _ _ (by rw [length_linspace]; exact hn),
    getElem_linspace]
  simp

theorem linspace_getD_last (a b : ℚ) (n : ℕ) (hn : 2 ≤ n) :
    (linspace a b n).getD (n - 1) 0 = b := by
  rw [List.getD_eq_getElem _ _ (by rw [length_linspace]; omega),
    getElem_linspace]
  have hc : (((n - 1 : ℕ)) : ℚ) = (n : ℚ) - 1 := by
    have : 1 ≤ n := by omega
    push_cast [this]
    ring
  have hnz : ((n : ℚ) - 1) ≠ 0 := by
    have h2 : (2 : ℚ) ≤ (n : ℚ) := by exact_mod_cast hn
    intro h
    linarith
  rw [hc]
  field_simp

/-- C6 (amended): `eFAP_thresh` is antitone in the target false-alarm
probability whenever the fitted log-density slope is negative (the normal,
declining-tail case) and the evaluation grid is ascending
(`min sBIC < 10·max sBIC`); the external `10.**` enters only through its
strict monotonicity. -/
theorem eFAP_thresh_antitone (log10q : ℚ → Option ℚ) (pow10 : ℚ → ℚ)
    (powerBic : List ℚ) (fap1 fap2 : ℚ) (num_pers : ℕ)
    (hmono : StrictMono pow10)
    (hslope : (eFAPLinfit log10q powerBic).1 < 0)
    (hrange : listMin (npSort powerBic) < 10 * listMax (npSort powerBic))
    (hfap : fap1 ≤ fap2) :
    eFAP_thresh log10q pow10 powerBic fap2 num_pers ≤
      eFAP_thresh log10q pow10 powerBic fap1 num_pers := by
  have ht : fap1 / (num_pers : ℚ) ≤ fap2 / (num_pers : ℚ) := by
    rcases Nat.eq_zero_or_pos num_pers with h0 | hpos
    · rw [h0]
      simp
    · have : (0 : ℚ) < (num_pers : ℚ) := by exact_mod_cast hpos
      exact (div_le_div_iff_of_pos_right this).mpr hfap
  have hxpair : (eFAPXmod powerBic).Pairwise (· < ·) := by
    rw [eFAPXmod]
    exact linspace_pairwise_lt _ _ _ hrange
  have hlpair : ((eFAPXmod powerBic).map (fun xv =>
      pow10 ((eFAPLinfit log10q powerBic).1 * xv +
        (eFAPLinfit log10q powerBic).2))).Pairwise (· > ·) := by
    rw [List.pairwise_map]
    refine hxpair.imp ?_
    intro x y hxy
    have h1 : (eFAPLinfit log10q powerBic).1 * y +
        (eFAPLinfit log10q powerBic).2 <
        (eFAPLinfit log10q powerBic).1 * x +
        (eFAPLinfit log10q powerBic).2 := by nlinarith
    exact hmono h1
  have hlne : ((eFAPXmod powerBic).map (fun xv =>
      pow10 ((eFAPLinfit log10q powerBic).1 * xv +
        (eFAPLinfit log10q powerBic).2))) ≠ [] := by
    intro hcon
    have := congrArg List.length hcon
    rw [List.length_map, eFAPXmod, length_linspace] at this
    simp at this
  have hidx := selIdx_antitone _ hlpair hlne _ _ ht
  show threshSelect (eFAPXmod powerBic) _ (fap2 / (num_pers : ℚ)) ≤
    threshSelect (eFAPXmod powerBic) _ (fap1 / (num_pers : ℚ))
  rw [threshSelect, threshSelect]
  have hlen : ((eFAPXmod powerBic).map (fun xv =>
      pow10 ((eFAPLinfit log10q powerBic).1 * xv +
        (eFAPLinfit log10q powerBic).2))).length = 10000 := by
    rw [List.length_map, eFAPXmod, length_linspace]
  have hi1 : selIdx ((eFAPXmod powerBic).map (fun xv =>
      pow10 ((eFAPLinfit log10q powerBic).1 * xv +
        (eFAPLinfit log10q powerBic).2))) (fap1 / (num_pers : ℚ)) < 10000 := by
    rw [← hlen]
    exact selIdx_lt_length _ _ hlne
  rw [show eFAPXmod powerBic = linspace (listMin (npSort powerBic))
    (10 * listMax (npSort powerBic)) 10000 from rfl]
  exact linspace_getD_mono _ _ _ (le_of_lt hrange) _ _ hidx hi1

/-! ## Claim C6: endpoint selection lemmas and concrete instances -/

theorem pairwise_lt_selDists_of_low (lfit : List ℚ) (t : ℚ)
    (hinc : lfit.Pairwise (· < ·)) (hlow : ∀ v ∈ lfit, t ≤ v) :
    (selDists lfit t).Pairwise (· < ·) := by
  rw [selDists, List.pairwise_map]
  refine List.Pairwise.imp_of_mem ?_ hinc
  intro u v hu hv huv
  rw [abs_of_nonneg (by linarith [hlow u hu]),
    abs_of_nonneg (by linarith [hlow v hv])]
  linarith

theorem pairwise_gt_selDists_of_high (lfit : List ℚ) (t : ℚ)
    (hinc : lfit.Pairwise (· < ·)) (hhigh : ∀ v ∈ lfit, v ≤ t) :
    (selDists lfit t).Pairwise (· > ·) := by
  rw [selDists, List.pairwise_map]
  refine List.Pairwise.imp_of_mem ?_ hinc
  intro u v hu hv huv
  rw [abs_of_nonpos (by linarith [hhigh u hu]),
    abs_of_nonpos (by linarith [hhigh v hv])]
  simp only [gt_iff_lt]
  linarith

theorem firstIdxOf_min_of_pairwise_lt (d : List ℚ) (hne : d ≠ [])
    (hinc : d.Pairwise (· < ·)) : firstIdxOf (listMin d) d = 0 := by
  cases d with
  | nil => exact absurd rfl hne
  | cons x xs =>
      cases xs with
      | nil => simp [listMin, firstIdxOf]
      | cons y t =>
          have hhead := (List.pairwise_cons.mp hinc).1
          have hxlt : x < listMin (y :: t) :=
            hhead _ (listMin_mem (y :: t) (by simp))
          have hm : listMin (x :: y :: t) = x := by
            rw [listMin_cons x (y :: t) (by simp)]
            exact min_eq_left (le_of_lt hxlt)
          rw [hm]
          simp [firstIdxOf]

theorem firstIdxOf_min_of_pairwise_gt (d : List ℚ) (hne : d ≠ [])
    (hdec : d.Pairwise (· > ·)) :
    firstIdxOf (listMin d) d = d.length - 1 := by
  induction d with
  | nil => exact absurd rfl hne
  | cons x xs ih =>
      cases xs with
      | nil => simp [listMin, firstIdxOf]
      | cons y t =>
          have hhead := (List.pairwise_cons.mp hdec).1
          have hminlt : listMin (y :: t) < x :=
            hhead _ (listMin_mem (y :: t) (by simp))
          have hm : listMin (x :: y :: t) = listMin (y :: t) := by
            rw [listMin_cons x (y :: t) (by simp)]
            exact min_eq_right (le_of_lt hminlt)
          rw [hm, firstIdxOf, if_neg (ne_of_gt hminlt)]
          rw [ih (by simp) (List.pairwise_cons.mp hdec).2]
          simp

theorem selIdx_of_low_target (lfit : List ℚ) (t : ℚ) (hne : lfit ≠ [])
    (hinc : lfit.Pairwise (· < ·)) (hlow : ∀ v ∈ lfit, t ≤ v) :
    selIdx lfit t = 0 := by
  rw [selIdx]
  exact firstIdxOf_min_of_pairwise_lt _ (by rw [selDists]; simpa using hne)
    (pairwise_lt_selDists_of_low lfit t hinc hlow)

theorem selIdx_of_high_target (lfit : List ℚ) (t : ℚ) (hne : lfit ≠ [])
    (hinc : lfit.Pairwise (· < ·)) (hhigh : ∀ v ∈ lfit, v ≤ t) :
    selIdx lfit t = lfit.length - 1 := by
  rw [selIdx]
  have h := firstIdxOf_min_of_pairwise_gt (selDists lfit t)
    (by rw [selDists]; simpa using hne)
    (pairwise_gt_selDists_of_high lfit t hinc hhigh)
  rwa [show (selDists lfit t).length = lfit.length from by
    rw [selDists, List.length_map]] at h

/-- A partial stand-in for the external `np.log10`, finite (`some`) exactly
on positive inputs and increasing there, used to instantiate the opaque
logarithm in concrete instances. -/
def log10cex : ℚ → Option ℚ := fun q => if 0 < q then some q else none

/-- A strictly monotone stand-in for the external `10.**`. -/
def pow10cex : ℚ → ℚ := fun q => q / 1000

theorem pow10cex_strictMono : StrictMono pow10cex := by
  intro a b h
  exact (div_lt_div_iff_of_pos_right (by norm_num : (0 : ℚ) < 1000)).mpr h

/-- A Δ-BIC power series whose mid-band histogram rises, making the fitted
log-density slope positive. -/
def cexBicUp : List ℚ := [0, 0, 0, 0, 0, 0, 90, 90, 90, 90]

/-- A Δ-BIC power series whose mid-band histogram falls, making the fitted
log-density slope negative. -/
def cexBicDown : List ℚ := [0, 0, 0, 0, 0, 0, 0, 0, 90, 90]

theorem eFAPLinfit_cexUp : eFAPLinfit log10cex cexBicUp = (1/162, 2/9) := by
  rw [eFAPLinfit]
  rw [show npSort cexBicUp = cexBicUp from by decide]
  rw [show cropBIC cexBicUp = [0, 90, 90, 90] from by
    rw [cropBIC]
    norm_num [pyInt, cexBicUp, pySlice]
    decide]
  rw [show histEdges [0, 90, 90, 90] =
      [0, 9, 18, 27, 36, 45, 54, 63, 72, 81, 90] from by
    rw [histEdges]
    rw [if_neg (by decide), if_neg (by decide)]
    norm_num [linspace, List.range_succ, listMin, listMax]]
  rw [show histCounts [0, 90, 90, 90]
      [0, 9, 18, 27, 36, 45, 54, 63, 72, 81, 90] =
      [1, 0, 0, 0, 0, 0, 0, 0, 0, 3] from by decide]
  rw [show binCenters [0, 9, 18, 27, 36, 45, 54, 63, 72, 81, 90] =
      [9/2, 27/2, 45/2, 63/2, 81/2, 99/2, 117/2, 135/2, 153/2, 171/2] from by
    norm_num [binCenters, List.range_succ]]
  norm_num [log10cex, List.filterMap, polyfit1]

theorem eFAPLinfit_cexDown :
    eFAPLinfit log10cex cexBicDown = (-1/162, 7/9) := by
  rw [eFAPLinfit]
  rw [show npSort cexBicDown = cexBicDown from by decide]
  rw [show cropBIC cexBicDown = [0, 0, 0, 90] from by
    rw [cropBIC]
    norm_num [pyInt, cexBicDown, pySlice]
    decide]
  rw [show histEdges [0, 0, 0, 90] =
      [0, 9, 18, 27, 36, 45, 54, 63, 72, 81, 90] from by
    rw [histEdges]
    rw [if_neg (by decide), if_neg (by decide)]
    norm_num [linspace, List.range_succ, listMin, listMax]]
  rw [show histCounts [0, 0, 0, 90]
      [0, 9, 18, 27, 36, 45, 54, 63, 72, 81, 90] =
      [3, 0, 0, 0, 0, 0, 0, 0, 0, 1] from by decide]
  rw [show binCenters [0, 9, 18, 27, 36, 45, 54, 63, 72, 81, 90] =
      [9/2, 27/2, 45/2, 63/2, 81/2, 99/2, 117/2, 135/2, 153/2, 171/2] from by
    norm_num [binCenters, List.range_succ]]
  norm_num [log10cex, List.filterMap, polyfit1]

/-- C6 (counterexample): `eFAP_thresh` is not antitone in `fap` for every
power series: with the rising-mid-band series `cexBicUp` the fitted
log-density slope is positive, so `lfit` increases along the evaluation
grid and a larger false-alarm probability selects a larger threshold.
Raising `fap` from `1/5000` to `1/100` moves `bic_thresh` from the bottom
of the grid (0) to its top (900).  (The stand-ins for `np.log10` and `10**`
are finite exactly on positive inputs and strictly monotone,
respectively.) -/
theorem eFAP_thresh_not_antitone :
    (1 / 5000 : ℚ) ≤ 1 / 100 ∧
    StrictMono pow10cex ∧
    (∀ q : ℚ, (log10cex q).isSome ↔ 0 < q) ∧
    eFAP_thresh log10cex pow10cex cexBicUp (1 / 5000) 1 = 0 ∧
    eFAP_thresh log10cex pow10cex cexBicUp (1 / 100) 1 = 900 ∧
    ¬ (eFAP_thresh log10cex pow10cex cexBicUp (1 / 100) 1 ≤
        eFAP_thresh log10cex pow10cex cexBicUp (1 / 5000) 1) := by
  have hxmod : eFAPXmod cexBicUp = linspace 0 900 10000 := by
    rw [eFAPXmod, show listMin (npSort cexBicUp) = 0 from by decide,
      show listMax (npSort cexBicUp) = 90 from by decide]
    norm_num
  have hpair : (linspace (0 : ℚ) 900 10000).Pairwise (· < ·) :=
    linspace_pairwise_lt _ _ _ (by norm_num)
  have hlen : (linspace (0 : ℚ) 900 10000).length = 10000 :=
    length_linspace _ _ _
  have hfpair : ((linspace (0 : ℚ) 900 10000).map (fun xv =>
      pow10cex ((1 / 162 : ℚ) * xv + 2 / 9))).Pairwise (· < ·) := by
    rw [List.pairwise_map]
    refine hpair.imp ?_
    intro x y hxy
    apply pow10cex_strictMono
    linarith
  have hfne : ((linspace (0 : ℚ) 900 10000).map (fun xv =>
      pow10cex ((1 / 162 : ℚ) * xv + 2 / 9))) ≠ [] := by
    intro hcon
    have := congrArg List.length hcon
    rw [List.length_map, hlen] at this
    simp at this
  have hflen : ((linspace (0 : ℚ) 900 10000).map (fun xv =>
      pow10cex ((1 / 162 : ℚ) * xv + 2 / 9))).length = 10000 := by
    rw [List.length_map, hlen]
  have hlow : ∀ v ∈ (linspace (0 : ℚ) 900 10000).map (fun xv =>
      pow10cex ((1 / 162 : ℚ) * xv + 2 / 9)), (1 / 5000 : ℚ) ≤ v := by
    intro v hv
    rw [List.mem_map] at hv
    obtain ⟨x, hx, rfl⟩ := hv
    have hb := mem_linspace_between_le 0 900 x 10000 (by norm_num) hx
    rw [pow10cex]
    rw [le_div_iff₀ (by norm_num : (0 : ℚ) < 1000)]
    linarith [hb.1]
  have hhigh : ∀ v ∈ (linspace (0 : ℚ) 900 10000).map (fun xv =>
      pow10cex ((1 / 162 : ℚ) * xv + 2 / 9)), v ≤ (1 / 100 : ℚ) := by
    intro v hv
    rw [List.mem_map] at hv
    obtain ⟨x, hx, rfl⟩ := hv
    have hb := mem_linspace_between_le 0 900 x 10000 (by norm_num) hx
    rw [pow10cex]
    rw [div_le_iff₀ (by norm_num : (0 : ℚ) < 1000)]
    linarith [hb.2]
  have h1 : eFAP_thresh log10cex pow10cex cexBicUp (1 / 5000) 1 = 0 := by
    show threshSelect (eFAPXmod cexBicUp) ((eFAPXmod cexBicUp).map
      (fun xv => pow10cex ((eFAPLinfit log10cex cexBicUp).1 * xv +
        (eFAPLinfit log10cex cexBicUp).2))) ((1 / 5000 : ℚ) / ((1 : ℕ) : ℚ))
      = 0
    rw [eFAPLinfit_cexUp, hxmod]
    rw [show ((1 / 5000 : ℚ) / ((1 : ℕ) : ℚ)) = 1 / 5000 from by norm_num]
    rw [threshSelect]
    rw [show ((1 / 162 : ℚ), (2 / 9 : ℚ)).1 = 1 / 162 from rfl,
      show ((1 / 162 : ℚ), (2 / 9 : ℚ)).2 = 2 / 9 from rfl]
    rw [selIdx_of_low_target _ _ hfne hfpair hlow]
    exact linspace_getD_zero 0 900 10000 (by norm_num)
  have h2 : eFAP_thresh log10cex pow10cex cexBicUp (1 / 100) 1 = 900 := by
    show threshSelect (eFAPXmod cexBicUp) ((eFAPXmod cexBicUp).map
      (fun xv => pow10cex ((eFAPLinfit log10cex cexBicUp).1 * xv +
        (eFAPLinfit log10cex cexBicUp).2))) ((1 / 100 : ℚ) / ((1 : ℕ) : ℚ))
      = 900
    rw [eFAPLinfit_cexUp, hxmod]
    rw [show ((1 / 100 : ℚ) / ((1 : ℕ) : ℚ)) = 1 / 100 from by norm_num]
    rw [threshSelect]
    rw [show ((1 / 162 : ℚ), (2 / 9 : ℚ)).1 = 1 / 162 from rfl,
      show ((1 / 162 : ℚ), (2 / 9 : ℚ)).2 = 2 / 9 from rfl]
    rw [selIdx_of_high_target _ _ hfne hfpair hhigh]
    rw [hflen]
    exact linspace_getD_last 0 900 10000 (by norm_num)
  refine ⟨by norm_num, pow10cex_strictMono, ?_, h1, h2, ?_⟩
  · intro q
    rw [log10cex]
    by_cases h : 0 < q
    · simp [h]
    · simp [h]
  · rw [h1, h2]
    norm_num

/-- Witness for `eFAP_thresh_antitone` at a concrete input with a falling
mid-band histogram (negative fitted slope). -/
theorem eFAP_thresh_antitone_witness :
    eFAP_thresh log10cex pow10cex cexBicDown (1 / 100) 1 ≤
      eFAP_thresh log10cex pow10cex cexBicDown (1 / 1000) 1 := by
  refine eFAP_thresh_antitone log10cex pow10cex cexBicDown (1 / 1000)
    (1 / 100) 1 pow10cex_strictMono ?_ ?_ (by norm_num)
  · rw [eFAPLinfit_cexDown]
    norm_num
  · rw [show listMin (npSort cexBicDown) = 0 from by decide,
      show listMax (npSort cexBicDown) = 90 from by decide]
    norm_num

end RVSearch
